import Mathlib

/-!
Shallow embedding of the vscode-python testing adapters:
`pythonFiles/vscode_pytest/__init__.py` (discovery tree builder and the
reporting client), `pythonFiles/pytest-vscode-integration/pytest_vscode_integration.py`
(the `sendPost` client), and `pythonFiles/unittestadapter/execution.py`
(result recorder and execution main flow).

Filesystem paths (`pathlib.Path`) are modelled as lists of segments from the
root; `Path.parent` is `dropLast` and `Path.name` is the last segment.  The
Python code keys several dicts by mutable node objects or strings and mutates
node children in place; the embedding replaces object references by explicit
keys (module identity, bare class name, folder name) and carries the maps as
insertion-ordered association lists, mirroring Python dict semantics
(lookup, insert-on-miss appends, value update preserves position).
-/

deriving instance DecidableEq for Except

namespace PyTestAdapter

/-- A filesystem path as its list of segments from the root
(`pathlib.Path("a/b/c")` is `["a","b","c"]`). -/
abbrev PathT := List String

/-- `Path.name`: the final segment (empty for the root, as in pathlib). -/
def pathName (p : PathT) : String := p.getLast?.getD ""

/-- `Path.parent`: drop the final segment. -/
def pathParent (p : PathT) : PathT := p.dropLast

/-- `p` is an ancestor-or-self of `q` (used only in theorem hypotheses;
decidable formulation of the prefix relation). -/
def pathLe (p q : PathT) : Prop := q.take p.length = p

instance (p q : PathT) : Decidable (pathLe p q) := by
  unfold pathLe; infer_instance

/-! Association lists with Python `dict` semantics: insertion order is
preserved, assigning to an existing key updates it in place. -/

/-- Python `d[k]` / `d.get(k)`. -/
def alookup {α β : Type} [DecidableEq α] : List (α × β) → α → Option β
  | [], _ => none
  | (k', v) :: rest, k => if k' = k then some v else alookup rest k

/-- Python `d[k] = v`: update in place if present, else append. -/
def aset {α β : Type} [DecidableEq α] : List (α × β) → α → β → List (α × β)
  | [], k, v => [(k, v)]
  | (k', v') :: rest, k, v =>
      if k' = k then (k', v) :: rest else (k', v') :: aset rest k v

/-- Apply `f` to the entry at key `k` (no-op when absent); models mutating
the dict-stored object in place. -/
def aupd {α β : Type} [DecidableEq α] : List (α × β) → α → (β → β) → List (α × β)
  | [], _, _ => []
  | (k', v') :: rest, k, f =>
      if k' = k then (k', f v') :: rest else (k', v') :: aupd rest k f

/-! ## Data model of `vscode_pytest/__init__.py` (lines 19-36, 206-318)

A pytest collector object is replaced by the data the builder reads off it.
`pytest.Module` objects are dict keys by object identity in
`file_nodes_dict`; `mid` models that identity (two distinct collector objects
for the same file, e.g. a doctest module and a regular module, have distinct
`mid`s). -/

/-- Identity and path of a `pytest.Module` collector. -/
structure ModuleRef where
  mid : Nat
  path : PathT
deriving DecidableEq, Repr

/-- The data read off a `pytest.Class` parent: `name`, `path`, `nodeid`, and
its own parent module (`test_case.parent.parent`). -/
structure ClassRef where
  name : String
  path : PathT
  nodeid : String
  module : ModuleRef
deriving DecidableEq, Repr

/-- The structural parent of a collected test case. -/
inductive ParentRec
  | module (m : ModuleRef)
  | cls (c : ClassRef)
deriving DecidableEq, Repr

/-- The data the builder reads off a collected `pytest.Item`:
`name`, `path`, `location[1]`, `nodeid`, whether it is a `DoctestItem`,
and its parent collector. -/
structure CaseRec where
  name : String
  path : PathT
  location : Option Nat
  nodeid : String
  isDoctest : Bool
  parent : ParentRec
deriving DecidableEq, Repr

/-- The pytest session object: its `name`, `path` and collected `items`. -/
structure SessionRec where
  name : String
  path : PathT
  items : List CaseRec
deriving DecidableEq, Repr

/-- `TestItem` (leaf node), as built by `create_test_node`. -/
structure TestItemN where
  name : String
  path : PathT
  lineno : String
  id_ : String
  runID : String
deriving DecidableEq, Repr

/-- A child of a file node: either a test item, or a reference to the class
node stored in `class_nodes_dict` under the bare class name (in Python the
children list holds the class dict object itself; the builder only ever
reaches class nodes through `class_nodes_dict`, so a key reference is a
faithful rendering of the aliasing). -/
inductive FileChild
  | item (t : TestItemN)
  | cls (key : String)
deriving DecidableEq, Repr

/-- A file or doc-file `TestNode` (`create_file_node` / `create_doc_file_node`);
`type_` is `"file"` or `"doc_file"`, `id_` is `str(path)`. -/
structure FileNode where
  name : String
  path : PathT
  type_ : String
  id_ : PathT
  children : List FileChild
deriving DecidableEq, Repr

/-- A class `TestNode` (`create_class_node`); its children are test items. -/
structure ClassNode where
  name : String
  path : PathT
  id_ : String
  children : List TestItemN
deriving DecidableEq, Repr

/-- A reference to a node that can appear as a folder child or session child:
a file node (keyed by its module) or a folder node (keyed by its directory
name, the memoization key of `created_files_folders_dict`). -/
inductive NodeRef
  | file (m : ModuleRef)
  | folder (key : String)
deriving DecidableEq, Repr

/-- A folder `TestNode` (`create_folder_node`); `id_` is `str(path)` of the
directory it was first created for. -/
structure FolderNode where
  name : String
  path : PathT
  id_ : PathT
  children : List NodeRef
deriving DecidableEq, Repr

/-- The collection of nodes produced by `build_test_tree`: the session node
fields, the three memo maps, and the session children (keyed by `id_` as in
`session_children_dict`). `errors` is always empty in this version of the
code. -/
structure TreeResult where
  sessionName : String
  sessionPath : PathT
  files : List (ModuleRef × FileNode)
  classes : List (String × ClassNode)
  folders : List (String × FolderNode)
  sessionChildren : List (PathT × NodeRef)
  errors : List String
deriving DecidableEq, Repr

/-! ## Node factories (lines 206-318) -/

/-- `create_test_node`: `lineno` is `location[1] + 1` as a string, or `""`. -/
def create_test_node (tc : CaseRec) : TestItemN :=
  { name := tc.name
    path := tc.path
    lineno := match tc.location with
              | none => ""
              | some n => toString (n + 1)
    id_ := tc.nodeid
    runID := tc.nodeid }

/-- `create_file_node`. -/
def create_file_node (m : ModuleRef) : FileNode :=
  { name := pathName m.path, path := m.path, type_ := "file"
    id_ := m.path, children := [] }

/-- `create_doc_file_node`. -/
def create_doc_file_node (m : ModuleRef) : FileNode :=
  { name := pathName m.path, path := m.path, type_ := "doc_file"
    id_ := m.path, children := [] }

/-- `create_class_node`. -/
def create_class_node (c : ClassRef) : ClassNode :=
  { name := c.name, path := c.path, id_ := c.nodeid, children := [] }

/-- `create_folder_node`. -/
def create_folder_node (folderName : String) (p : PathT) : FolderNode :=
  { name := folderName, path := p, id_ := p, children := [] }

/-! ## Phase 1 of `build_test_tree` (lines 124-158): the per-case loop. -/

/-- The mutable state of the per-case loop: `file_nodes_dict` (keyed by the
module collector object) and `class_nodes_dict` (keyed by the bare class
name `test_case.parent.name`, line 143/146). -/
structure BuildState where
  files : List (ModuleRef × FileNode)
  classes : List (String × ClassNode)
deriving DecidableEq, Repr

/-- Lines 127-133 / 134-140: `try file_nodes_dict[parent] except KeyError:
create and store`. `mk` is `create_file_node` or `create_doc_file_node`. -/
def ensureFile (st : BuildState) (m : ModuleRef) (mk : ModuleRef → FileNode) :
    BuildState :=
  match alookup st.files m with
  | some _ => st
  | none => { st with files := aset st.files m (mk m) }

/-- Append a child to the (present) file node for `m`. -/
def appendFileChild (st : BuildState) (m : ModuleRef) (c : FileChild) : BuildState :=
  { st with files := aupd st.files m (fun n => { n with children := n.children ++ [c] }) }

/-- Lines 142-146: `try class_nodes_dict[parent.name] except KeyError: create`. -/
def ensureClass (st : BuildState) (c : ClassRef) : BuildState :=
  match alookup st.classes c.name with
  | some _ => st
  | none => { st with classes := aset st.classes c.name (create_class_node c) }

/-- Append a test item to the (present) class node under key `key`. -/
def appendClassChild (st : BuildState) (key : String) (t : TestItemN) : BuildState :=
  { st with classes := aupd st.classes key (fun n => { n with children := n.children ++ [t] }) }

/-- Membership test `test_class_node not in test_file_node["children"]`
(line 157).  Python compares by dict value equality; since distinct class
keys give nodes with distinct names and items never equal class dicts, key
reference equality coincides with it. -/
def fileHasChild (st : BuildState) (m : ModuleRef) (c : FileChild) : Bool :=
  match alookup st.files m with
  | some n => c ∈ n.children
  | none => false

/-- One iteration of the loop at lines 124-158. -/
def processCase (st : BuildState) (tc : CaseRec) : BuildState :=
  let tn := create_test_node tc
  if tc.isDoctest then
    -- lines 126-133: a DoctestItem is attached only when its parent is a
    -- pytest.Module; otherwise the case is silently dropped.
    match tc.parent with
    | .module m =>
        let st := ensureFile st m create_doc_file_node
        appendFileChild st m (.item tn)
    | .cls _ => st
  else
    match tc.parent with
    | .module m =>
        -- lines 134-140
        let st := ensureFile st m create_file_node
        appendFileChild st m (.item tn)
    | .cls c =>
        -- lines 141-158
        let st := ensureClass st c
        let st := appendClassChild st c.name tn
        let st := ensureFile st c.module create_file_node
        -- line 155: the class node is appended unconditionally ...
        let st := appendFileChild st c.module (.cls c.name)
        -- lines 157-158: ... and only then does the membership check run,
        -- so this second conditional append can never fire.
        if fileHasChild st c.module (.cls c.name) then st
        else appendFileChild st c.module (.cls c.name)

/-! ## Phase 2 (lines 159-203): folder nesting and session children. -/

/-- The loop body of `build_nested_folders` (lines 193-200): memoize the
folder node by its directory *name* `nm`, then append `prev` to its children
unless already present. -/
def stepFm (fm : List (String × FolderNode)) (nm : String) (iter : PathT)
    (prev : NodeRef) : List (String × FolderNode) :=
  -- lines 194-198: memoized by directory *name*
  let fm1 := match alookup fm nm with
             | some _ => fm
             | none => aset fm nm (create_folder_node nm iter)
  -- lines 199-200: append prev node if not already a child
  match alookup fm1 nm with
  | some n =>
      if prev ∈ n.children then fm1
      else aupd fm1 nm
        (fun n' => { n' with children := n'.children ++ [prev] })
  | none => fm1

/-- `build_nested_folders` (lines 173-203), with explicit fuel: the Python
`while` loop walks `iterator_path = iterator_path.parent` and terminates only
if it reaches `session.path`; for a file outside the session root it never
terminates (at the filesystem root, `parent` is a fixed point).  With
`fuel ≥` the number of loop iterations the result is exact. -/
def build_nested_folders (spath : PathT) :
    Nat → PathT → NodeRef → List (String × FolderNode) →
    List (String × FolderNode) × NodeRef
  | 0, _, prev, fm => (fm, prev)
  | fuel + 1, iter, prev, fm =>
      if iter = spath then (fm, prev)
      else
        build_nested_folders spath fuel (pathParent iter)
          (.folder (pathName iter)) (stepFm fm (pathName iter) iter prev)

/-- The `id_` of the node a `NodeRef` stands for (used for the
`session_children_dict` key, line 166). -/
def refId (files : List (ModuleRef × FileNode)) (fm : List (String × FolderNode)) :
    NodeRef → PathT
  | .file m => match alookup files m with
               | some n => n.id_
               | none => m.path
  | .folder key => match alookup fm key with
                   | some n => n.id_
                   | none => []

/-- Lines 159-169: walk every created file node into nested folders and
collect the deduplicated session children.  (`root_id` is `str(path)` of a
pathlib path, which is never the empty string, so its truthiness test at
line 167 always passes.) -/
def sessionStep (s : SessionRec) (files : List (ModuleRef × FileNode))
    (acc : List (String × FolderNode) × List (PathT × NodeRef))
    (entry : ModuleRef × FileNode) :
    List (String × FolderNode) × List (PathT × NodeRef) :=
  let res := build_nested_folders s.path (pathParent entry.1.path).length.succ
               (pathParent entry.1.path) (.file entry.1) acc.1
  let rid := refId files res.1 res.2
  match alookup acc.2 rid with
  | some _ => (res.1, acc.2)
  | none => (res.1, acc.2 ++ [(rid, res.2)])

def sessionPhase (s : SessionRec) (files : List (ModuleRef × FileNode)) :
    List (String × FolderNode) × List (PathT × NodeRef) :=
  files.foldl (sessionStep s files) ([], [])

/-- `build_test_tree` (lines 111-170). -/
def build_test_tree (s : SessionRec) : TreeResult :=
  let st := s.items.foldl processCase ⟨[], []⟩
  let p2 := sessionPhase s st.files
  { sessionName := s.name
    sessionPath := s.path
    files := st.files
    classes := st.classes
    folders := p2.1
    sessionChildren := p2.2
    errors := [] }

/-! ## The reporting client (lines 321-388, and `sendPost` in
`pytest_vscode_integration.py` lines 274-290).

`json.dumps` is called with its defaults, in particular `ensure_ascii=True`:
every character outside `0x20..0x7e` (plus `"` and backslash) is emitted as
an ASCII escape, so the serialized body is pure ASCII.  The body is modelled
by a JSON value type and the default `json.dumps` serializer (separators
`", "` and `": "`). -/

/-- Backslash character. -/
def bslashC : Char := Char.ofNat 92

/-- Double-quote character. -/
def dquoteC : Char := Char.ofNat 34

/-- Lower-case hex digit. -/
def hexDigit (n : Nat) : Char :=
  if n < 10 then Char.ofNat (48 + n) else Char.ofNat (87 + n % 16)

/-- Four hex digits of a (sub-0x10000) code unit. -/
def hex4 (n : Nat) : List Char :=
  [hexDigit (n / 4096 % 16), hexDigit (n / 256 % 16), hexDigit (n / 16 % 16),
   hexDigit (n % 16)]

/-- One character of a Python string, serialized by `json.dumps` with
`ensure_ascii=True`: short escapes for `\" \\ \b \t \n \f \r`, `\uXXXX` for
other characters outside `0x20..0x7e`, surrogate pairs above the BMP. -/
def escapeChar (c : Char) : List Char :=
  if c.toNat = 34 then [bslashC, dquoteC]
  else if c.toNat = 92 then [bslashC, bslashC]
  else if c.toNat = 8 then [bslashC, Char.ofNat 98]
  else if c.toNat = 9 then [bslashC, Char.ofNat 116]
  else if c.toNat = 10 then [bslashC, Char.ofNat 110]
  else if c.toNat = 12 then [bslashC, Char.ofNat 102]
  else if c.toNat = 13 then [bslashC, Char.ofNat 114]
  else if c.toNat < 32 then bslashC :: Char.ofNat 117 :: hex4 c.toNat
  else if c.toNat < 127 then [c]
  else if c.toNat < 65536 then bslashC :: Char.ofNat 117 :: hex4 c.toNat
  else
    (bslashC :: Char.ofNat 117 :: hex4 (55296 + (c.toNat - 65536) / 1024)) ++
    (bslashC :: Char.ofNat 117 :: hex4 (56320 + (c.toNat - 65536) % 1024))

/-- A quoted, escaped JSON string literal. -/
def dumpString (s : String) : List Char :=
  dquoteC :: s.data.foldr (fun c acc => escapeChar c ++ acc) [dquoteC]

/-- Decimal digits of a natural number (Python `repr` of a non-negative int);
fuel-based tail recursion, `fuel = n + 1` is always enough. -/
def natDigitsAux : Nat → Nat → List Char → List Char
  | 0, _, acc => acc
  | fuel + 1, n, acc =>
      let d := Char.ofNat (48 + n % 10)
      if n < 10 then d :: acc else natDigitsAux fuel (n / 10) (d :: acc)

/-- Decimal rendering of a natural number. -/
def natChars (n : Nat) : List Char := natDigitsAux (n + 1) n []

/-- Python `repr` of an int: optional minus sign and decimal digits. -/
def intChars (n : Int) : List Char :=
  if n < 0 then Char.ofNat 45 :: natChars n.natAbs else natChars n.natAbs

/-- A JSON value, the shape of any payload dict handed to `json.dumps`. -/
inductive JVal
  | str (s : String)
  | num (n : Int)
  | jbool (b : Bool)
  | jnull
  | arr (xs : List JVal)
  | obj (fields : List (String × JVal))
deriving Repr

mutual

/-- `json.dumps` with default arguments (`ensure_ascii=True`, separators
`", "` / `": "`). -/
def dumps : JVal → List Char
  | .str s => dumpString s
  | .num n => intChars n
  | .jbool b => if b then "true".data else "false".data
  | .jnull => "null".data
  | .arr xs => Char.ofNat 91 :: dumpsArr xs ++ [Char.ofNat 93]
  | .obj fs => Char.ofNat 123 :: dumpsObj fs ++ [Char.ofNat 125]

/-- Comma-separated array elements. -/
def dumpsArr : List JVal → List Char
  | [] => []
  | [x] => dumps x
  | x :: y :: rest => dumps x ++ [Char.ofNat 44, Char.ofNat 32] ++ dumpsArr (y :: rest)

/-- Comma-separated `"key": value` pairs. -/
def dumpsObj : List (String × JVal) → List Char
  | [] => []
  | [(k, v)] => dumpString k ++ [Char.ofNat 58, Char.ofNat 32] ++ dumps v
  | (k, v) :: e :: rest =>
      dumpString k ++ [Char.ofNat 58, Char.ofNat 32] ++ dumps v ++
      [Char.ofNat 44, Char.ofNat 32] ++ dumpsObj (e :: rest)

end

/-- The wire request assembled by `execution_post` (lines 354-360) and
`discovery_post` (lines 379-385): the `Content-Length` header carries
`len(data)`, the Python character count of the serialized body, and the body
is `data` itself; the whole request is then UTF-8 encoded and sent. -/
structure WireRequest where
  port : String
  uuid : String
  contentLength : Nat
  body : String
deriving Repr

/-- Build the request for a serialized payload, as both posting routines do:
`data = json.dumps(payload)` then `Content-Length: {len(data)}`. -/
def mkWireRequest (port uuid : String) (payload : JVal) : WireRequest :=
  let data : String := ⟨dumps payload⟩
  { port := port, uuid := uuid, contentLength := data.length, body := data }

/-- The request assembled by `execution_post` for its payload. -/
def execution_post_request (port uuid : String) (payload : JVal) : WireRequest :=
  mkWireRequest port uuid payload

/-- The request assembled by `discovery_post` for its payload. -/
def discovery_post_request (port uuid : String) (payload : JVal) : WireRequest :=
  mkWireRequest port uuid payload

/-- The request assembled by `sendPost` in `pytest_vscode_integration.py`
(lines 282-289), same construction. -/
def sendPost_request (port uuid : String) (payload : JVal) : WireRequest :=
  mkWireRequest port uuid payload

/-! ## TEST_PORT handling and the discovery payload. -/

/-- A process environment. -/
abbrev Env := List (String × String)

/-- `os.getenv`. -/
def getenv (env : Env) (k : String) : Option String := alookup env k

/-- Python whitespace stripped by `int()`. -/
def isSpaceC (c : Char) : Bool :=
  c.toNat = 32 || c.toNat = 9 || c.toNat = 10 || c.toNat = 13 ||
  c.toNat = 12 || c.toNat = 11

/-- ASCII decimal digit test. -/
def isDigitC (c : Char) : Bool := 48 ≤ c.toNat && c.toNat ≤ 57

/-- Digits with Python's single-underscore grouping (an underscore must sit
between two digits). `acc` accumulates the value. -/
def parseDigitsAux : Nat → List Char → Option Nat
  | acc, [] => some acc
  | acc, c :: rest =>
      if isDigitC c then parseDigitsAux (acc * 10 + (c.toNat - 48)) rest
      else if c.toNat = 95 then
        match rest with
        | [] => none
        | c' :: rest' =>
            if isDigitC c' then parseDigitsAux (acc * 10 + (c'.toNat - 48)) rest'
            else none
      else none

/-- A non-empty digit group. -/
def parseDigits : List Char → Option Nat
  | [] => none
  | c :: rest =>
      if isDigitC c then parseDigitsAux (c.toNat - 48) rest else none

/-- Python `int(s)` for a base-10 string: strip whitespace, optional sign,
digits; `none` is a raised `ValueError`. -/
def pythonInt (s : String) : Option Int :=
  let l := ((s.data.dropWhile isSpaceC).reverse.dropWhile isSpaceC).reverse
  match l with
  | [] => none
  | c :: rest =>
      if c.toNat = 43 then (parseDigits rest).map Int.ofNat
      else if c.toNat = 45 then (parseDigits rest).map (fun n => -(n : Int))
      else (parseDigits l).map Int.ofNat

/-- `int(os.getenv("TEST_PORT", 45454))` as evaluated by `execution_post`
(lines 349-352): the default is the integer `45454` (and `int` of an int is
itself); a set but unparsable value raises `ValueError`. -/
def execution_post_port (env : Env) : Except String Int :=
  match getenv env "TEST_PORT" with
  | none => .ok 45454
  | some s =>
      match pythonInt s with
      | some n => .ok n
      | none => .error ("ValueError: invalid literal for int() with base 10: " ++ s)

/-- Same expression in `discovery_post` (line 375-377). -/
def discovery_post_port (env : Env) : Except String Int :=
  execution_post_port env

/-- Same expression in `sendPost` (lines 276-278). -/
def sendPost_port (env : Env) : Except String Int :=
  execution_post_port env

/-- The discovery payload dict (lines 321-328). -/
structure DiscoveryPayloadDict where
  cwd : String
  status : String
  tests : TreeResult
deriving DecidableEq, Repr

/-- Line 374: `payload = {"cwd": "cwd", "status": "success", "tests": session_node}` —
the `cwd` argument of `discovery_post` is not used; the literal string
`"cwd"` is stored instead. -/
def discovery_post_payload (cwd : String) (session_node : TreeResult) :
    DiscoveryPayloadDict :=
  let _ := cwd
  { cwd := "cwd", status := "success", tests := session_node }

/-- `pytest_sessionfinish` (lines 93-107) on a clean exit: it builds the tree
and calls `discovery_post` with the real `os.getcwd()`. -/
def sessionfinish_discovery_payload (realCwd : String) (s : SessionRec) :
    DiscoveryPayloadDict :=
  discovery_post_payload realCwd (build_test_tree s)

end PyTestAdapter

/-! ## The unittest execution adapter, `unittestadapter/execution.py`. -/

namespace UnittestAdapter

open PyTestAdapter (Env getenv alookup aset)

/-- The `(type, value, traceback)` triple of `sys.exc_info()`, carried at the
interface boundary as the strings the adapter extracts from it
(`f"{error[0]} {error[1]}"` and `"".join(traceback.format_exception(*error))`). -/
structure ErrInfo where
  etype : String
  evalue : String
  tbtext : String
deriving DecidableEq, Repr

/-- One value of `UnittestTestResult.formatted` (lines 128-134). -/
structure FormattedEntry where
  test : String
  outcome : String
  message : String
  traceback : Option String
  subtest : Option String
deriving DecidableEq, Repr

/-- The `result` dict built by `formatResult` (lines 110-134). -/
def mkResultEntry (testId : String) (outcome : String) (error : Option ErrInfo)
    (subtestId : Option String) : FormattedEntry :=
  { test := testId
    outcome := outcome
    message := match error with
               | none => ""
               | some e => e.etype ++ " " ++ e.evalue
    traceback := (error.map ErrInfo.tbtext)
    subtest := subtestId }

/-- Lines 123-126: the storage key is the sub-test's own id when a sub-test
is supplied, else the test's id. -/
def resultKey (testId : String) (subtestId : Option String) : String :=
  subtestId.getD testId

/-- Line 135: `self.formatted[test_id] = result` (a Python dict assignment,
last write per key wins). -/
def formatResultMap (formatted : List (String × FormattedEntry))
    (testId : String) (outcome : String) (error : Option ErrInfo)
    (subtestId : Option String) : List (String × FormattedEntry) :=
  aset formatted (resultKey testId subtestId)
    (mkResultEntry testId outcome error subtestId)

/-- A send over the run pipe (`send_run_data`). -/
structure SendAction where
  entry : FormattedEntry
  pipe : String
deriving DecidableEq, Repr

/-- `formatResult` (lines 103-146) in full: update the map, then check
`TEST_RUN_PIPE`; when it is unset (or empty, Python falsiness) the method
raises `VSCodeUnittestError` before `send_run_data` performs any pipe I/O. -/
def formatResult (env : Env) (formatted : List (String × FormattedEntry))
    (testId : String) (outcome : String) (error : Option ErrInfo)
    (subtestId : Option String) :
    List (String × FormattedEntry) × Except String SendAction :=
  let m := formatResultMap formatted testId outcome error subtestId
  let entry := mkResultEntry testId outcome error subtestId
  match getenv env "TEST_RUN_PIPE" with
  | none =>
      (m, .error "UNITTEST ERROR: TEST_RUN_PIPE is not set at the time of unittest trying to send data. ")
  | some p =>
      if p = "" then
        (m, .error "UNITTEST ERROR: TEST_RUN_PIPE is not set at the time of unittest trying to send data. ")
      else (m, .ok { entry := entry, pipe := p })

/-- `addSubTest` (lines 89-101): outcome is `subtest-failure` when an error
is present, else `subtest-success`, recorded for `subtest`'s own id. -/
def addSubTest (env : Env) (formatted : List (String × FormattedEntry))
    (testId subId : String) (err : Option ErrInfo) :
    List (String × FormattedEntry) × Except String SendAction :=
  formatResult env formatted testId
    (if err.isSome then "subtest-failure" else "subtest-success") err (some subId)

/-! ### The `__main__` flow (lines 235-316). -/

/-- Observable events of the main block before and at the pipe connection. -/
inductive MainEvent
  | printMsg (s : String)
  | openPipe (p : Option String)
deriving DecidableEq, Repr

/-- Python truthiness of an optional string. -/
def truthy : Option String → Bool
  | none => false
  | some s => s ≠ ""

/-- Lines 249-259: read the two pipe variables, print an error message for
each missing one, then enter `PipeManager(run_test_ids_pipe)` regardless —
the connection (I/O on the pipe) is attempted even when the variable was
never set. -/
def mainPrelude (env : Env) : List MainEvent :=
  let runIds := getenv env "RUN_TEST_IDS_PIPE"
  let runPipe := getenv env "TEST_RUN_PIPE"
  (if truthy runIds then []
   else [.printMsg "Error[vscode-unittest]: RUN_TEST_IDS_PIPE env var is not set."]) ++
  (if truthy runPipe then []
   else [.printMsg "Error[vscode-unittest]: TEST_RUN_PIPE env var is not set."]) ++
  [.openPipe runIds]

/-- An execution payload (`ExecutionPayloadDict`). -/
structure ExecPayload where
  cwd : String
  status : String
  result : Option (List (String × FormattedEntry))
  error : Option String
deriving DecidableEq, Repr

/-- The end-of-transmission sentinel (`EOTPayloadDict`, line 315). -/
structure EOTPayloadDict where
  command_type : String
  eot : Bool
deriving DecidableEq, Repr

/-- A payload handed to `send_post_request`. -/
inductive PostedPayload
  | exec (p : ExecPayload)
  | eot (p : EOTPayloadDict)
deriving DecidableEq, Repr

/-- `send_run_data` (lines 222-232): wrap one formatted result into a
single-entry execution payload keyed by `subtest`-or-`test`. -/
def send_run_data_payload (cwd : String) (entry : FormattedEntry) : ExecPayload :=
  { cwd := cwd
    status := entry.outcome
    result := some [(entry.subtest.getD entry.test, entry)]
    error := none }

/-- Lines 287-316 on the non-raising path: when test ids were received, the
per-test payloads are streamed by `formatResult`/`send_run_data` during
`run_tests` (the value `run_tests` returns is never posted); with no ids an
error execution payload is posted; in both cases the EOT sentinel
`{"command_type": "execution", "eot": True}` is posted last.  (On the
exception paths — pipe connect failure, id parse failure — the adapter
raises before posting anything further and no EOT is sent.)
`outcomes` is the stream of formatted results the run produced. -/
def mainRunPosts (cwd : String) (params : List String)
    (outcomes : List FormattedEntry) : List PostedPayload :=
  (if params.isEmpty then
     [.exec { cwd := cwd, status := "error", result := none,
              error := some "No test ids received from buffer" }]
   else outcomes.map (fun e => .exec (send_run_data_payload cwd e)))
  ++ [.eot { command_type := "execution", eot := true }]

end UnittestAdapter

namespace PyTestAdapter

/-! ## Derived notions used by the stated properties. -/

/-- The module collector whose file node a case is attached under (none for
a doctest with a non-module parent, which the builder silently drops). -/
def moduleOf (tc : CaseRec) : Option ModuleRef :=
  match tc.parent, tc.isDoctest with
  | .module m, _ => some m
  | .cls c, false => some c.module
  | .cls _, true => none

/-- The identifier (`id_`) a file child exposes in the serialized tree. -/
def fileChildId (res : TreeResult) : FileChild → String
  | .item t => t.id_
  | .cls key =>
      match alookup res.classes key with
      | some c => c.id_
      | none => ""

/-- `r` is a child of the folder node stored under `key`. -/
def childMemB (fm : List (String × FolderNode)) (key : String) (r : NodeRef) : Bool :=
  match alookup fm key with
  | some n => r ∈ n.children
  | none => false

/-- A descending chain of folder links: starting at folder `a`, pass through
the folders named by `bs` in order, ending with `r` as a child of the last. -/
def chainToB (fm : List (String × FolderNode)) : String → List String → NodeRef → Bool
  | a, [], r => childMemB fm a r
  | a, b :: bs, r => childMemB fm a (.folder b) && chainToB fm b bs r

/-- There is a path in the output tree from the session root to the file node
of module `m` whose folder nodes are exactly the list `ds`, top-down. -/
def sessionChainB (res : TreeResult) : List String → ModuleRef → Bool
  | [], m => res.sessionChildren.any (fun kv => decide (kv.2 = NodeRef.file m))
  | d :: ds, m =>
      res.sessionChildren.any (fun kv => decide (kv.2 = NodeRef.folder d)) &&
      chainToB res.folders d ds (.file m)

/-- Occurrences of the test id `tid` inside one file child. -/
def countInFileChild (res : TreeResult) (tid : String) : FileChild → Nat
  | .item t => if t.id_ = tid then 1 else 0
  | .cls key =>
      match alookup res.classes key with
      | some c => (c.children.filter (fun t => t.id_ = tid)).length
      | none => 0

/-- Occurrences of the test id `tid` in the subtree a `NodeRef` denotes, as
the serialized tree repeats shared children; `fuel` bounds folder depth
(folder links can even be cyclic, see the collision example). -/
def countInRef (res : TreeResult) (tid : String) : Nat → NodeRef → Nat
  | _, .file m =>
      match alookup res.files m with
      | some n => (n.children.map (countInFileChild res tid)).sum
      | none => 0
  | 0, .folder _ => 0
  | fuel + 1, .folder key =>
      match alookup res.folders key with
      | some n => (n.children.map (countInRef res tid fuel)).sum
      | none => 0

/-- Occurrences of the test id `tid` in the whole output tree. -/
def countOccurrences (res : TreeResult) (tid : String) (fuel : Nat) : Nat :=
  (res.sessionChildren.map (fun kv => countInRef res tid fuel kv.2)).sum

/-! ## Concrete inputs used by the counterexample / failing-input theorems. -/

/-- Module `proj/f.py`. -/
def mF : ModuleRef := ⟨0, ["proj", "f.py"]⟩

/-- Class `TestC` in `proj/f.py`. -/
def clsCF : ClassRef := ⟨"TestC", ["proj", "f.py"], "f.py::TestC", mF⟩

/-- First test case of `TestC`. -/
def caseA : CaseRec :=
  ⟨"test_a", ["proj", "f.py"], some 3, "f.py::TestC::test_a", false, .cls clsCF⟩

/-- Second test case of `TestC`. -/
def caseB : CaseRec :=
  ⟨"test_b", ["proj", "f.py"], some 7, "f.py::TestC::test_b", false, .cls clsCF⟩

/-- Two test cases sharing the class parent `TestC` (C1/C4 failing input). -/
def sessTwoInClass : SessionRec := ⟨"proj", ["proj"], [caseA, caseB]⟩

/-- Module `proj/g.py`. -/
def mG : ModuleRef := ⟨1, ["proj", "g.py"]⟩

/-- A distinct class also named `TestC`, in `proj/g.py`. -/
def clsCG : ClassRef := ⟨"TestC", ["proj", "g.py"], "g.py::TestC", mG⟩

/-- A test case of `g.py::TestC`. -/
def caseC : CaseRec :=
  ⟨"test_c", ["proj", "g.py"], some 3, "g.py::TestC::test_c", false, .cls clsCG⟩

/-- Two classes with the same bare name in different files (C3 input). -/
def sessSameName : SessionRec := ⟨"proj", ["proj"], [caseA, caseC]⟩

/-- Module `proj/x/a.py`. -/
def mXA : ModuleRef := ⟨0, ["proj", "x", "a.py"]⟩

/-- Module `proj/y/x/b.py` — its directory shares the leaf name `x` with
`proj/x`. -/
def mYXB : ModuleRef := ⟨1, ["proj", "y", "x", "b.py"]⟩

/-- A test in `proj/x/a.py`. -/
def case1 : CaseRec :=
  ⟨"test_1", mXA.path, some 0, "x/a.py::test_1", false, .module mXA⟩

/-- A test in `proj/y/x/b.py`. -/
def case2 : CaseRec :=
  ⟨"test_2", mYXB.path, some 0, "y/x/b.py::test_2", false, .module mYXB⟩

/-- Two files whose directories collide on the leaf name `x` (C5 input). -/
def sessCollide : SessionRec := ⟨"proj", ["proj"], [case1, case2]⟩

/-- A single file one directory below the root (used by witnesses). -/
def sessSimple : SessionRec := ⟨"proj", ["proj"], [case1]⟩

/-! ### Relations used to reason about the folder-nesting phase. -/

/-- `fm'` extends `fm`: every stored folder node survives with the same
name, path and id, and keeps all its children (children lists only grow). -/
def FmLe (fm fm' : List (String × FolderNode)) : Prop :=
  ∀ k n, alookup fm k = some n →
    ∃ n', alookup fm' k = some n' ∧ n'.name = n.name ∧ n'.path = n.path
      ∧ n'.id_ = n.id_ ∧ ∀ c ∈ n.children, c ∈ n'.children

/-- `p` is a directory on the ancestry walk of some created file node:
an ancestor-or-self of the parent directory of a key of `files`. -/
def DirOf (files : List (ModuleRef × FileNode)) (p : PathT) : Prop :=
  ∃ e ∈ files, pathLe p (pathParent e.1.path)

/-- Structural invariant of `created_files_folders_dict`: every stored
folder node's name is its key (the directory name), its id is its path, its
path ends in its key and lies on some file's ancestry walk. -/
def FolderMapInv (files : List (ModuleRef × FileNode))
    (fm : List (String × FolderNode)) : Prop :=
  ∀ k n, alookup fm k = some n →
    n.name = k ∧ n.id_ = n.path ∧ pathName n.path = k ∧ DirOf files n.path

/-- Invariant of `session_children_dict` entries: each is either a file
reference keyed by the file's path, or a folder reference whose key resolves
in the folder map to a node whose path is the entry key. -/
def SessEntryInv (files : List (ModuleRef × FileNode))
    (fm : List (String × FolderNode)) (e : PathT × NodeRef) : Prop :=
  (∃ mr, e.2 = NodeRef.file mr ∧ e.1 = mr.path ∧ (alookup files mr).isSome)
  ∨ (∃ k n, e.2 = NodeRef.folder k ∧ alookup fm k = some n ∧ n.path = e.1)

/-- Invariant of `file_nodes_dict`: every stored file node's `id_` is the
path of its module key (`create_file_node`/`create_doc_file_node` set it so
and nothing rewrites it). -/
def FilesIdInv (files : List (ModuleRef × FileNode)) : Prop :=
  ∀ m' n', alookup files m' = some n' → n'.id_ = m'.path

/-- Every character of the list is ASCII. -/
def asciiL (l : List Char) : Prop := ∀ c ∈ l, c.toNat < 128

instance (l : List Char) : Decidable (asciiL l) := by
  unfold asciiL
  infer_instance

end PyTestAdapter

/-! # Theorems -/

namespace PyTestAdapter

/-! ## Association-list lemmas. -/

theorem alookup_aset_self {α β : Type} [DecidableEq α] (l : List (α × β)) (k : α) (v : β) :
    alookup (aset l k v) k = some v := by
  induction l with
  | nil => simp [aset, alookup]
  | cons e rest ih =>
      by_cases h : e.1 = k
      · simp [aset, h, alookup]
      · simp [aset, h, alookup, ih]

theorem alookup_aset_ne {α β : Type} [DecidableEq α] (l : List (α × β)) (k k' : α) (v : β)
    (h : k' ≠ k) : alookup (aset l k v) k' = alookup l k' := by
  induction l with
  | nil => simp [aset, alookup, Ne.symm h]
  | cons e rest ih =>
      by_cases he : e.1 = k
      · subst he
        simp [aset, alookup, Ne.symm h]
      · simp [aset, he, alookup, ih]

/-! ## C2: the discovery payload ignores its `cwd` argument. -/

/-- C2: for every invocation of `discovery_post`, the posted payload's `cwd`
field is the literal string "cwd" (the caller's argument, the real working
directory passed by `pytest_sessionfinish`, is ignored) and its `status`
field is always "success". -/
theorem C2_discovery_payload_constant (c c' : String) (node : TreeResult)
    (s : SessionRec) :
    (discovery_post_payload c node).cwd = "cwd"
    ∧ (discovery_post_payload c node).status = "success"
    ∧ discovery_post_payload c node = discovery_post_payload c' node
    ∧ (sessionfinish_discovery_payload c s).cwd = "cwd"
    ∧ (sessionfinish_discovery_payload c s).status = "success" :=
  ⟨rfl, rfl, rfl, rfl, rfl⟩

/-! ## C1 / C4: the class node is appended to the file children once per
test case — the dead membership check at lines 157-158 runs only after the
unconditional append at line 155. -/

/-- C1: on the failing input (two test cases sharing the class parent
`TestC`), `build_test_tree` attaches the single class node to the file node
twice: the file's children list holds two entries with the same identifier
`f.py::TestC`, contradicting "the class node is appended to the file node's
children only if not already present" and "no node has two children with the
same identifier". -/
theorem C1_duplicate_class_child :
    ((alookup (build_test_tree sessTwoInClass).files mF).map FileNode.children
      = some [.cls "TestC", .cls "TestC"])
    ∧ ((build_test_tree sessTwoInClass).files.map
        (fun kv => kv.2.children.map (fileChildId (build_test_tree sessTwoInClass))))
      = [["f.py::TestC", "f.py::TestC"]]
    ∧ (build_test_tree sessTwoInClass).classes.length = 1 := by
  decide

/-- C4: on the same failing input, the test case `test_a` occurs twice in
the output tree (once under each copy of the duplicated class child), not
exactly once as the claim states. -/
theorem C4_test_serialized_twice :
    countOccurrences (build_test_tree sessTwoInClass) "f.py::TestC::test_a" 4 = 2 := by
  decide

/-! ## C3: class-node memoization is by bare class name (line 143/146),
not by fully-qualified identifier. -/

/-- C3 counterexample: two test cases whose class parents are distinct
(`f.py::TestC` and `g.py::TestC`) but share the bare name `TestC` produce a
single class node — carrying the first class's identifier and holding both
tests — attached under both file nodes, not two distinct class nodes. -/
theorem C3_bare_name_collapse_counterexample :
    (build_test_tree sessSameName).classes.length = 1
    ∧ (alookup (build_test_tree sessSameName).classes "TestC").map
        (fun c => (c.id_, c.children.map TestItemN.id_))
      = some ("f.py::TestC", ["f.py::TestC::test_a", "g.py::TestC::test_c"])
    ∧ ((alookup (build_test_tree sessSameName).files mF).map FileNode.children
        = some [.cls "TestC"])
    ∧ ((alookup (build_test_tree sessSameName).files mG).map FileNode.children
        = some [.cls "TestC"]) := by
  decide

/-! ### Helper lemmas: `processCase` touches `class_nodes_dict` only through
`ensureClass`/`appendClassChild`, independently of the file-node updates. -/

theorem ensureFile_classes (st : BuildState) (m : ModuleRef) (mk : ModuleRef → FileNode) :
    (ensureFile st m mk).classes = st.classes := by
  unfold ensureFile
  cases alookup st.files m <;> rfl

theorem appendFileChild_classes (st : BuildState) (m : ModuleRef) (c : FileChild) :
    (appendFileChild st m c).classes = st.classes := rfl

theorem appendClassChild_classes (st : BuildState) (key : String) (t : TestItemN) :
    (appendClassChild st key t).classes
      = aupd st.classes key (fun n => { n with children := n.children ++ [t] }) := rfl

theorem ensureClass_classes (st : BuildState) (c : ClassRef) :
    (ensureClass st c).classes
      = match alookup st.classes c.name with
        | some _ => st.classes
        | none => aset st.classes c.name (create_class_node c) := by
  unfold ensureClass
  cases alookup st.classes c.name <;> rfl

theorem processCase_classes_cls (st : BuildState) (tc : CaseRec) (c : ClassRef)
    (hp : tc.parent = .cls c) (hd : tc.isDoctest = false) :
    (processCase st tc).classes
      = aupd (ensureClass st c).classes c.name
          (fun n => { n with children := n.children ++ [create_test_node tc] }) := by
  unfold processCase
  rw [hd, hp]
  simp only [Bool.false_eq_true, if_false]
  rw [apply_ite BuildState.classes]
  simp only [appendFileChild_classes, ensureFile_classes, appendClassChild_classes, ite_self]

theorem build_test_tree_classes (s : SessionRec) :
    (build_test_tree s).classes = (s.items.foldl processCase ⟨[], []⟩).classes := rfl

/-- C3 amended: class nodes are memoized by the class's bare name, so any
two test cases whose class parents share a bare name (even when the parents
are distinct) end up in a single class node, carrying the first parent's
identifier and containing both tests. -/
theorem C3_memoized_by_bare_name (s : SessionRec) (tc1 tc2 : CaseRec) (c1 c2 : ClassRef)
    (hitems : s.items = [tc1, tc2])
    (h1 : tc1.parent = .cls c1) (h2 : tc2.parent = .cls c2)
    (hd1 : tc1.isDoctest = false) (hd2 : tc2.isDoctest = false)
    (hname : c2.name = c1.name) :
    (build_test_tree s).classes
      = [(c1.name, { name := c1.name, path := c1.path, id_ := c1.nodeid,
                     children := [create_test_node tc1, create_test_node tc2] })] := by
  rw [build_test_tree_classes, hitems]
  simp only [List.foldl]
  have s1 := processCase_classes_cls ⟨[], []⟩ tc1 c1 h1 hd1
  have s2 := processCase_classes_cls (processCase ⟨[], []⟩ tc1) tc2 c2 h2 hd2
  rw [s2, ensureClass_classes, s1, ensureClass_classes]
  simp [alookup, aset, aupd, create_class_node, hname]

/-- C3 witness: the amended theorem applied to the concrete colliding
session. -/
theorem C3_memoized_by_bare_name_witness :
    (build_test_tree sessSameName).classes
      = [("TestC", { name := "TestC", path := ["proj", "f.py"], id_ := "f.py::TestC",
                     children := [create_test_node caseA, create_test_node caseC] })] :=
  C3_memoized_by_bare_name sessSameName caseA caseC clsCF clsCG rfl rfl rfl rfl rfl rfl

/-! ## C5: folder ancestry.

Preparatory lemmas about paths, the association-list operations, the
monotone extension order on the folder map, the `build_nested_folders`
walk, and the session-children fold; then the counterexample and the
amended existence theorem. -/

theorem pathLe_iff (p q : PathT) : pathLe p q ↔ ∃ t, p ++ t = q := by
  constructor
  · intro h
    refine ⟨q.drop p.length, ?_⟩
    nth_rewrite 1 [← h]
    exact List.take_append_drop _ q
  · rintro ⟨t, rfl⟩
    unfold pathLe
    exact List.take_left p t

theorem pathLe_refl (p : PathT) : pathLe p p := by
  simp [pathLe]

theorem pathLe_parent (p : PathT) : pathLe (pathParent p) p := by
  rw [pathLe_iff]
  exact ⟨p.drop (p.length - 1), by
    show p.dropLast ++ _ = p
    rw [List.dropLast_eq_take]
    exact List.take_append_drop _ p⟩

theorem pathLe_trans {p q r : PathT} (h1 : pathLe p q) (h2 : pathLe q r) : pathLe p r := by
  rw [pathLe_iff] at h1 h2 ⊢
  obtain ⟨t1, rfl⟩ := h1
  obtain ⟨t2, rfl⟩ := h2
  exact ⟨t1 ++ t2, by rw [List.append_assoc]⟩

theorem pathName_concat (xs : PathT) (x : String) : pathName (xs ++ [x]) = x := by
  unfold pathName
  rw [List.getLast?_concat]
  rfl

theorem pathParent_concat (xs : PathT) (x : String) : pathParent (xs ++ [x]) = xs := by
  unfold pathParent
  exact List.dropLast_concat

theorem append_ne_self {xs : PathT} (ds : List String) (h : ds ≠ []) : xs ++ ds ≠ xs := by
  intro hcon
  have : (xs ++ ds).length = xs.length := by rw [hcon]
  rw [List.length_append] at this
  have : ds.length = 0 := by omega
  exact h (List.length_eq_zero.mp this)

theorem alookup_mem {α β : Type} [DecidableEq α] {l : List (α × β)} {k : α} {v : β}
    (h : alookup l k = some v) : (k, v) ∈ l := by
  induction l with
  | nil => simp [alookup] at h
  | cons e rest ih =>
      unfold alookup at h
      by_cases he : e.1 = k
      · rw [if_pos he] at h
        have hev : (k, v) = e := by
          obtain ⟨a, b⟩ := e
          simp_all
        rw [hev]
        exact List.mem_cons_self _ _
      · rw [if_neg he] at h
        exact List.mem_cons_of_mem _ (ih h)

theorem alookup_aupd_self {α β : Type} [DecidableEq α] (l : List (α × β)) (k : α) (f : β → β) :
    alookup (aupd l k f) k = (alookup l k).map f := by
  induction l with
  | nil => simp [aupd, alookup]
  | cons e rest ih =>
      by_cases he : e.1 = k
      · simp [aupd, he, alookup]
      · simp [aupd, he, alookup, ih]

theorem alookup_aupd_ne {α β : Type} [DecidableEq α] (l : List (α × β)) (k k' : α) (f : β → β)
    (h : k' ≠ k) : alookup (aupd l k f) k' = alookup l k' := by
  induction l with
  | nil => simp [aupd, alookup]
  | cons e rest ih =>
      by_cases he : e.1 = k
      · subst he
        simp [aupd, alookup, Ne.symm h, ih]
      · simp [aupd, he, alookup, ih]

theorem FmLe_refl (fm : List (String × FolderNode)) : FmLe fm fm :=
  fun k n h => ⟨n, h, rfl, rfl, rfl, fun c hc => hc⟩

theorem FmLe_trans {a b c : List (String × FolderNode)} (h1 : FmLe a b) (h2 : FmLe b c) :
    FmLe a c := by
  intro k n h
  obtain ⟨n', hl', he1, he2, he3, hc'⟩ := h1 k n h
  obtain ⟨n'', hl'', hf1, hf2, hf3, hc''⟩ := h2 k n' hl'
  exact ⟨n'', hl'', hf1.trans he1, hf2.trans he2, hf3.trans he3,
    fun c hc => hc'' c (hc' c hc)⟩

theorem FmLe_aset_new (fm : List (String × FolderNode)) (nm : String) (v : FolderNode)
    (h : alookup fm nm = none) : FmLe fm (aset fm nm v) := by
  intro k n hk
  have hne : k ≠ nm := by
    intro rfl'
    rw [rfl'] at hk
    rw [h] at hk
    cases hk
  rw [alookup_aset_ne _ _ _ _ hne]
  exact ⟨n, hk, rfl, rfl, rfl, fun c hc => hc⟩

theorem FmLe_aupd_push (fm : List (String × FolderNode)) (nm : String) (prev : NodeRef) :
    FmLe fm (aupd fm nm (fun n' => { n' with children := n'.children ++ [prev] })) := by
  intro k n hk
  by_cases he : k = nm
  · subst he
    rw [alookup_aupd_self, hk]
    exact ⟨_, rfl, rfl, rfl, rfl, fun c hc => List.mem_append_left _ hc⟩
  · rw [alookup_aupd_ne _ _ _ _ he]
    exact ⟨n, hk, rfl, rfl, rfl, fun c hc => hc⟩

theorem stepFm_le (fm : List (String × FolderNode)) (nm : String) (iter : PathT)
    (prev : NodeRef) : FmLe fm (stepFm fm nm iter prev) := by
  unfold stepFm
  cases h : alookup fm nm with
  | some n =>
      simp only [h]
      split
      · exact FmLe_refl fm
      · exact FmLe_aupd_push fm nm prev
  | none =>
      simp only [h, alookup_aset_self]
      have h1 : FmLe fm (aset fm nm (create_folder_node nm iter)) :=
        FmLe_aset_new fm nm _ h
      by_cases hp : prev ∈ (create_folder_node nm iter).children
      · rw [if_pos hp]
        exact h1
      · rw [if_neg hp]
        exact FmLe_trans h1 (FmLe_aupd_push _ nm prev)

theorem stepFm_mem (fm : List (String × FolderNode)) (nm : String) (iter : PathT)
    (prev : NodeRef) : childMemB (stepFm fm nm iter prev) nm prev = true := by
  unfold stepFm
  cases h : alookup fm nm with
  | some n =>
      simp only [h]
      by_cases hp : prev ∈ n.children
      · simp only [if_pos hp, childMemB, h]
        exact decide_eq_true hp
      · simp only [if_neg hp, childMemB, alookup_aupd_self, h, Option.map_some]
        simp
  | none =>
      simp only [h, alookup_aset_self]
      by_cases hp : prev ∈ (create_folder_node nm iter).children
      · simp only [if_pos hp, childMemB, alookup_aset_self]
        exact decide_eq_true hp
      · simp only [if_neg hp, childMemB, alookup_aupd_self, alookup_aset_self,
          Option.map_some]
        simp

theorem childMemB_mono {fm fm' : List (String × FolderNode)} (h : FmLe fm fm')
    {k : String} {r : NodeRef} (hm : childMemB fm k r = true) :
    childMemB fm' k r = true := by
  unfold childMemB at hm ⊢
  cases hl : alookup fm k with
  | none => rw [hl] at hm; cases hm
  | some n =>
      rw [hl] at hm
      obtain ⟨n', hl', _, _, _, hc⟩ := h k n hl
      rw [hl']
      exact decide_eq_true (hc r (of_decide_eq_true hm))

theorem chainToB_mono {fm fm' : List (String × FolderNode)} (h : FmLe fm fm') :
    ∀ (bs : List String) (a : String) (r : NodeRef),
    chainToB fm a bs r = true → chainToB fm' a bs r = true := by
  intro bs
  induction bs with
  | nil =>
      intro a r hc
      exact childMemB_mono h hc
  | cons b bs ih =>
      intro a r hc
      unfold chainToB at hc ⊢
      rw [Bool.and_eq_true] at hc ⊢
      exact ⟨childMemB_mono h hc.1, ih b r hc.2⟩

theorem chainToB_snoc (fm : List (String × FolderNode)) :
    ∀ (bs : List String) (a b : String) (r : NodeRef),
    chainToB fm a (bs ++ [b]) r
      = (chainToB fm a bs (.folder b) && childMemB fm b r) := by
  intro bs
  induction bs with
  | nil =>
      intro a b r
      rfl
  | cons c bs ih =>
      intro a b r
      show (childMemB fm a (.folder c) && chainToB fm c (bs ++ [b]) r) = _
      rw [ih c b r]
      show _ = ((childMemB fm a (.folder c) && chainToB fm c bs (.folder b)) && _)
      rw [Bool.and_assoc]

theorem childMemB_isSome {fm : List (String × FolderNode)} {k : String} {r : NodeRef}
    (h : childMemB fm k r = true) : (alookup fm k).isSome := by
  cases hl : alookup fm k with
  | none => simp [childMemB, hl] at h
  | some n => rfl

theorem chainToB_keys (fm : List (String × FolderNode)) :
    ∀ (bs : List String) (a : String) (r : NodeRef),
    chainToB fm a bs r = true → ∀ k ∈ a :: bs, (alookup fm k).isSome := by
  intro bs
  induction bs with
  | nil =>
      intro a r hc k hk
      rcases List.mem_cons.mp hk with rfl | hk
      · exact childMemB_isSome hc
      · cases hk
  | cons b bs ih =>
      intro a r hc k hk
      unfold chainToB at hc
      rw [Bool.and_eq_true] at hc
      rcases List.mem_cons.mp hk with rfl | hk
      · exact childMemB_isSome hc.1
      · exact ih b r hc.2 k hk

theorem bnf_at_root (spath : PathT) (fuel : Nat) (prev : NodeRef)
    (fm : List (String × FolderNode)) :
    build_nested_folders spath fuel spath prev fm = (fm, prev) := by
  cases fuel <;> simp [build_nested_folders]

theorem bnf_le (spath : PathT) :
    ∀ (fuel : Nat) (iter : PathT) (prev : NodeRef) (fm : List (String × FolderNode)),
    FmLe fm (build_nested_folders spath fuel iter prev fm).1 := by
  intro fuel
  induction fuel with
  | zero => intro iter prev fm; exact FmLe_refl fm
  | succ f ih =>
      intro iter prev fm
      unfold build_nested_folders
      by_cases hi : iter = spath
      · rw [if_pos hi]
        exact FmLe_refl fm
      · rw [if_neg hi]
        exact FmLe_trans (stepFm_le fm (pathName iter) iter prev) (ih _ _ _)

theorem stepFm_inv (files : List (ModuleRef × FileNode))
    (fm : List (String × FolderNode)) (nm : String) (iter : PathT) (prev : NodeRef)
    (hinv : FolderMapInv files fm) (hnm : pathName iter = nm)
    (hdir : DirOf files iter) : FolderMapInv files (stepFm fm nm iter prev) := by
  have hset : FolderMapInv files (aset fm nm (create_folder_node nm iter)) := by
    intro k n hk
    by_cases he : k = nm
    · subst he
      rw [alookup_aset_self] at hk
      cases hk
      exact ⟨rfl, rfl, hnm, hdir⟩
    · rw [alookup_aset_ne _ _ _ _ he] at hk
      exact hinv k n hk
  have haupd : ∀ gm, FolderMapInv files gm →
      FolderMapInv files (aupd gm nm (fun n' => { n' with children := n'.children ++ [prev] })) := by
    intro gm hgm k n hk
    by_cases he : k = nm
    · subst he
      rw [alookup_aupd_self] at hk
      cases hl : alookup gm k with
      | none => rw [hl] at hk; cases hk
      | some n0 =>
          rw [hl] at hk
          cases hk
          exact hgm k n0 hl
    · rw [alookup_aupd_ne _ _ _ _ he] at hk
      exact hgm k n hk
  unfold stepFm
  cases h : alookup fm nm with
  | some n0 =>
      simp only [h]
      by_cases hp : prev ∈ n0.children
      · rw [if_pos hp]
        exact hinv
      · rw [if_neg hp]
        exact haupd fm hinv
  | none =>
      simp only [h, alookup_aset_self]
      by_cases hp : prev ∈ (create_folder_node nm iter).children
      · rw [if_pos hp]
        exact hset
      · rw [if_neg hp]
        exact haupd _ hset

theorem bnf_inv (files : List (ModuleRef × FileNode)) (spath : PathT) :
    ∀ (fuel : Nat) (iter : PathT) (prev : NodeRef) (fm : List (String × FolderNode)),
    FolderMapInv files fm → (∀ p, pathLe p iter → DirOf files p) →
    FolderMapInv files (build_nested_folders spath fuel iter prev fm).1 := by
  intro fuel
  induction fuel with
  | zero => intro iter prev fm hinv _; exact hinv
  | succ f ih =>
      intro iter prev fm hinv hdir
      unfold build_nested_folders
      by_cases hi : iter = spath
      · rw [if_pos hi]
        exact hinv
      · rw [if_neg hi]
        refine ih _ _ _ ?_ ?_
        · exact stepFm_inv files fm _ iter prev hinv rfl (hdir iter (pathLe_refl iter))
        · intro p hp
          exact hdir p (pathLe_trans hp (pathLe_parent iter))

theorem stepFm_isSome (fm : List (String × FolderNode)) (nm : String) (iter : PathT)
    (prev : NodeRef) : (alookup (stepFm fm nm iter prev) nm).isSome := by
  have := stepFm_mem fm nm iter prev
  exact childMemB_isSome this

theorem FmLe_isSome {fm fm' : List (String × FolderNode)} (h : FmLe fm fm') {k : String}
    (hs : (alookup fm k).isSome) : (alookup fm' k).isSome := by
  cases hl : alookup fm k with
  | none => rw [hl] at hs; cases hs
  | some n =>
      obtain ⟨n', hl', _⟩ := h k n hl
      rw [hl']
      rfl

theorem bnf_root_cases (spath : PathT) :
    ∀ (fuel : Nat) (iter : PathT) (prev : NodeRef) (fm : List (String × FolderNode)),
    (build_nested_folders spath fuel iter prev fm).2 = prev
    ∨ ∃ k, (build_nested_folders spath fuel iter prev fm).2 = .folder k
        ∧ (alookup (build_nested_folders spath fuel iter prev fm).1 k).isSome := by
  intro fuel
  induction fuel with
  | zero => intro iter prev fm; left; rfl
  | succ f ih =>
      intro iter prev fm
      unfold build_nested_folders
      by_cases hi : iter = spath
      · rw [if_pos hi]
        left
        rfl
      · rw [if_neg hi]
        rcases ih (pathParent iter) (.folder (pathName iter))
            (stepFm fm (pathName iter) iter prev) with h | ⟨k, hk, hs⟩
        · right
          refine ⟨pathName iter, h, ?_⟩
          exact FmLe_isSome (bnf_le spath f _ _ _) (stepFm_isSome _ _ _ _)
        · right
          exact ⟨k, hk, hs⟩

theorem bnf_chain (spath : PathT) (d : String) :
    ∀ (ds' : List String) (prev : NodeRef) (fm : List (String × FolderNode)) (fuel : Nat),
    (d :: ds').length ≤ fuel →
    (build_nested_folders spath fuel (spath ++ (d :: ds')) prev fm).2 = .folder d
    ∧ chainToB (build_nested_folders spath fuel (spath ++ (d :: ds')) prev fm).1 d ds' prev = true := by
  intro ds'
  induction ds' using List.reverseRecOn with
  | nil =>
      intro prev fm fuel hlen
      cases fuel with
      | zero => simp at hlen
      | succ f =>
          have hne : spath ++ [d] ≠ spath := append_ne_self _ (by simp)
          unfold build_nested_folders
          rw [if_neg hne, pathName_concat, pathParent_concat, bnf_at_root]
          exact ⟨rfl, stepFm_mem fm d (spath ++ [d]) prev⟩
  | append_singleton ys y ih =>
      intro prev fm fuel hlen
      cases fuel with
      | zero => simp at hlen
      | succ f =>
          have hsplit : d :: (ys ++ [y]) = (d :: ys) ++ [y] := by simp
          have hne : spath ++ (d :: (ys ++ [y])) ≠ spath := append_ne_self _ (by simp)
          have hiter : spath ++ (d :: (ys ++ [y])) = (spath ++ (d :: ys)) ++ [y] := by
            rw [hsplit, List.append_assoc]
          unfold build_nested_folders
          rw [if_neg hne, hiter, pathName_concat, pathParent_concat]
          have hlen' : (d :: ys).length ≤ f := by
            simp at hlen ⊢
            omega
          obtain ⟨hroot, hchain⟩ := ih (.folder y)
            (stepFm fm y ((spath ++ (d :: ys)) ++ [y]) prev) f hlen'
          constructor
          · exact hroot
          · rw [chainToB_snoc, Bool.and_eq_true]
            refine ⟨hchain, ?_⟩
            refine childMemB_mono (bnf_le spath f _ _ _) ?_
            exact stepFm_mem fm y _ prev

/- Phase-1 lemmas about processCase and the files map. -/

theorem ensureFile_lookup_self (st : BuildState) (m : ModuleRef) (mk : ModuleRef → FileNode) :
    (alookup (ensureFile st m mk).files m).isSome := by
  unfold ensureFile
  cases h : alookup st.files m with
  | some n => simp [h]
  | none => simp [h, alookup_aset_self]

theorem ensureFile_lookup_mono (st : BuildState) (m : ModuleRef) (mk : ModuleRef → FileNode)
    (k : ModuleRef) (h : (alookup st.files k).isSome) :
    (alookup (ensureFile st m mk).files k).isSome := by
  unfold ensureFile
  cases hm : alookup st.files m with
  | some n => simpa [hm]
  | none =>
      simp only [hm]
      by_cases he : k = m
      · subst he
        simp [alookup_aset_self]
      · simpa [alookup_aset_ne _ _ _ _ he]

theorem ensureFile_keys_from (st : BuildState) (m : ModuleRef) (mk : ModuleRef → FileNode)
    (k : ModuleRef) (h : (alookup (ensureFile st m mk).files k).isSome) :
    (alookup st.files k).isSome ∨ k = m := by
  unfold ensureFile at h
  cases hm : alookup st.files m with
  | some n =>
      rw [hm] at h
      exact Or.inl h
  | none =>
      rw [hm] at h
      by_cases he : k = m
      · exact Or.inr he
      · rw [alookup_aset_ne _ _ _ _ he] at h
        exact Or.inl h

theorem appendFileChild_lookup_iff (st : BuildState) (m : ModuleRef) (c : FileChild)
    (k : ModuleRef) :
    (alookup (appendFileChild st m c).files k).isSome = (alookup st.files k).isSome := by
  unfold appendFileChild
  by_cases he : k = m
  · subst he
    simp [alookup_aupd_self]
  · simp [alookup_aupd_ne _ _ _ _ he]

theorem ensureClass_files (st : BuildState) (c : ClassRef) :
    (ensureClass st c).files = st.files := by
  unfold ensureClass
  cases alookup st.classes c.name <;> rfl

theorem appendClassChild_files (st : BuildState) (key : String) (t : TestItemN) :
    (appendClassChild st key t).files = st.files := rfl

theorem processCase_keys_mono (st : BuildState) (tc : CaseRec) (k : ModuleRef)
    (h : (alookup st.files k).isSome) :
    (alookup (processCase st tc).files k).isSome := by
  unfold processCase
  by_cases hd : tc.isDoctest
  · rw [if_pos hd]
    cases hp : tc.parent with
    | module m =>
        rw [appendFileChild_lookup_iff]
        exact ensureFile_lookup_mono _ _ _ _ h
    | cls c => exact h
  · rw [if_neg hd]
    cases hp : tc.parent with
    | module m =>
        rw [appendFileChild_lookup_iff]
        exact ensureFile_lookup_mono _ _ _ _ h
    | cls c =>
        rw [apply_ite (fun st => (alookup (BuildState.files st) k).isSome)]
        simp only [appendFileChild_lookup_iff]
        rw [ite_self]
        refine ensureFile_lookup_mono _ _ _ _ ?_
        rw [appendClassChild_files, ensureClass_files]
        exact h

theorem processCase_creates (st : BuildState) (tc : CaseRec) (m' : ModuleRef)
    (h : moduleOf tc = some m') :
    (alookup (processCase st tc).files m').isSome := by
  unfold moduleOf at h
  unfold processCase
  by_cases hd : tc.isDoctest
  · rw [if_pos hd]
    cases hp : tc.parent with
    | module m =>
        rw [hp, hd] at h
        simp at h
        subst h
        rw [appendFileChild_lookup_iff]
        exact ensureFile_lookup_self _ _ _
    | cls c =>
        rw [hp, hd] at h
        simp at h
  · rw [if_neg hd]
    cases hp : tc.parent with
    | module m =>
        rw [hp] at h
        simp at h
        subst h
        rw [appendFileChild_lookup_iff]
        exact ensureFile_lookup_self _ _ _
    | cls c =>
        rw [hp, eq_false_of_ne_true hd] at h
        simp at h
        subst h
        rw [apply_ite (fun st => (alookup (BuildState.files st) c.module).isSome)]
        simp only [appendFileChild_lookup_iff]
        rw [ite_self]
        exact ensureFile_lookup_self _ _ _

theorem processCase_keys_from (st : BuildState) (tc : CaseRec) (k : ModuleRef)
    (h : (alookup (processCase st tc).files k).isSome) :
    (alookup st.files k).isSome ∨ moduleOf tc = some k := by
  unfold processCase at h
  unfold moduleOf
  by_cases hd : tc.isDoctest
  · rw [if_pos hd] at h
    cases hp : tc.parent with
    | module m =>
        rw [hp] at h
        rw [appendFileChild_lookup_iff] at h
        rcases ensureFile_keys_from _ _ _ _ h with h' | rfl
        · exact Or.inl h'
        · right
          rfl
    | cls c =>
        rw [hp] at h
        exact Or.inl h
  · rw [if_neg hd] at h
    cases hp : tc.parent with
    | module m =>
        rw [hp] at h
        rw [appendFileChild_lookup_iff] at h
        rcases ensureFile_keys_from _ _ _ _ h with h' | rfl
        · exact Or.inl h'
        · right
          rfl
    | cls c =>
        rw [hp] at h
        rw [apply_ite (fun st => (alookup (BuildState.files st) k).isSome)] at h
        simp only [appendFileChild_lookup_iff] at h
        rw [ite_self] at h
        rcases ensureFile_keys_from _ _ _ _ h with h' | rfl
        · rw [appendClassChild_files, ensureClass_files] at h'
          exact Or.inl h'
        · right
          rw [eq_false_of_ne_true hd]

theorem alookup_appendFileChild (st : BuildState) (m : ModuleRef) (c : FileChild)
    (k : ModuleRef) :
    alookup (appendFileChild st m c).files k
      = if k = m then
          (alookup st.files k).map (fun n => { n with children := n.children ++ [c] })
        else alookup st.files k := by
  unfold appendFileChild
  by_cases he : k = m
  · subst he
    simp [alookup_aupd_self]
  · simp [he, alookup_aupd_ne _ _ _ _ he]

theorem appendFileChild_id_inv (st : BuildState) (m : ModuleRef) (c : FileChild)
    (h : FilesIdInv st.files) : FilesIdInv (appendFileChild st m c).files := by
  intro k n' hk
  rw [alookup_appendFileChild] at hk
  by_cases he : k = m
  · rw [if_pos he] at hk
    cases hl : alookup st.files k with
    | none => rw [hl] at hk; cases hk
    | some n0 =>
        rw [hl] at hk
        cases hk
        exact h k n0 hl
  · rw [if_neg he] at hk
    exact h k n' hk

theorem ensureFile_id_inv (st : BuildState) (m : ModuleRef) (mk : ModuleRef → FileNode)
    (hmk : (mk m).id_ = m.path) (h : FilesIdInv st.files) :
    FilesIdInv (ensureFile st m mk).files := by
  unfold ensureFile
  cases hl : alookup st.files m with
  | some n => exact h
  | none =>
      intro k n' hk
      by_cases he : k = m
      · subst he
        rw [alookup_aset_self] at hk
        cases hk
        exact hmk
      · rw [alookup_aset_ne _ _ _ _ he] at hk
        exact h k n' hk

theorem processCase_id_inv (st : BuildState) (tc : CaseRec)
    (h : FilesIdInv st.files) : FilesIdInv (processCase st tc).files := by
  unfold processCase
  by_cases hd : tc.isDoctest
  · rw [if_pos hd]
    cases hp : tc.parent with
    | module m => exact appendFileChild_id_inv _ _ _ (ensureFile_id_inv _ _ _ rfl h)
    | cls c => exact h
  · rw [if_neg hd]
    cases hp : tc.parent with
    | module m => exact appendFileChild_id_inv _ _ _ (ensureFile_id_inv _ _ _ rfl h)
    | cls c =>
        dsimp only
        have h1 : FilesIdInv (appendClassChild (ensureClass st c) c.name
            (create_test_node tc)).files := by
          rw [appendClassChild_files, ensureClass_files]
          exact h
        have h2 := appendFileChild_id_inv _ c.module (.cls c.name)
          (ensureFile_id_inv _ c.module create_file_node rfl h1)
        split
        · exact h2
        · exact appendFileChild_id_inv _ _ _ h2

theorem mem_alookup_isSome {α β : Type} [DecidableEq α] {l : List (α × β)} {k : α} {v : β}
    (h : (k, v) ∈ l) : (alookup l k).isSome := by
  induction l with
  | nil => cases h
  | cons e rest ih =>
      rcases List.mem_cons.mp h with rfl | h'
      · simp [alookup]
      · unfold alookup
        by_cases he : e.1 = k
        · simp [he]
        · simp only [if_neg he]
          exact ih h'

theorem phase1_id_inv (l : List CaseRec) :
    ∀ (st : BuildState), FilesIdInv st.files →
    FilesIdInv (l.foldl processCase st).files := by
  induction l with
  | nil => intro st h; exact h
  | cons t rest ih =>
      intro st h
      exact ih _ (processCase_id_inv st t h)

theorem phase1_keys_mono (l : List CaseRec) :
    ∀ (st : BuildState) (k : ModuleRef), (alookup st.files k).isSome →
    (alookup (l.foldl processCase st).files k).isSome := by
  induction l with
  | nil => intro st k h; exact h
  | cons t rest ih =>
      intro st k h
      exact ih _ _ (processCase_keys_mono st t k h)

theorem phase1_key_exists (l : List CaseRec) :
    ∀ (st : BuildState) (tc : CaseRec) (m' : ModuleRef), tc ∈ l → moduleOf tc = some m' →
    (alookup (l.foldl processCase st).files m').isSome := by
  induction l with
  | nil => intro st tc m' h; cases h
  | cons t rest ih =>
      intro st tc m' hmem hmod
      rcases List.mem_cons.mp hmem with rfl | h'
      · exact phase1_keys_mono rest _ _ (processCase_creates st tc m' hmod)
      · exact ih _ tc m' h' hmod

theorem phase1_keys_from (l : List CaseRec) :
    ∀ (st : BuildState) (m' : ModuleRef),
    (alookup (l.foldl processCase st).files m').isSome →
    (alookup st.files m').isSome ∨ ∃ tc ∈ l, moduleOf tc = some m' := by
  induction l with
  | nil => intro st m' h; exact Or.inl h
  | cons t rest ih =>
      intro st m' h
      rcases ih _ m' h with h' | ⟨tc, htc, hmod⟩
      · rcases processCase_keys_from st t m' h' with h'' | hmod
        · exact Or.inl h''
        · exact Or.inr ⟨t, List.mem_cons_self t rest, hmod⟩
      · exact Or.inr ⟨tc, List.mem_cons_of_mem t htc, hmod⟩

theorem SessEntryInv_mono (files : List (ModuleRef × FileNode))
    {fm fm' : List (String × FolderNode)} (h : FmLe fm fm')
    {e : PathT × NodeRef} (he : SessEntryInv files fm e) : SessEntryInv files fm' e := by
  rcases he with ⟨mr, h1, h2, h3⟩ | ⟨k, n, h1, h2, h3⟩
  · exact Or.inl ⟨mr, h1, h2, h3⟩
  · obtain ⟨n', hl', _, hp', _, _⟩ := h k n h2
    exact Or.inr ⟨k, n', h1, hl', by rw [hp', h3]⟩

theorem refId_file (files : List (ModuleRef × FileNode)) (fm : List (String × FolderNode))
    (m : ModuleRef) (hfid : FilesIdInv files) (hs : (alookup files m).isSome) :
    refId files fm (.file m) = m.path := by
  show (match alookup files m with
        | some n => n.id_
        | none => m.path) = m.path
  cases hl : alookup files m with
  | none => rfl
  | some n => exact hfid m n hl

theorem refId_folder (files : List (ModuleRef × FileNode)) (fm : List (String × FolderNode))
    (k : String) (n : FolderNode) (hl : alookup fm k = some n) :
    refId files fm (.folder k) = n.id_ := by
  show (match alookup fm k with
        | some n => n.id_
        | none => []) = n.id_
  rw [hl]

theorem sessionStep_mono (s : SessionRec) (files : List (ModuleRef × FileNode))
    (acc : List (String × FolderNode) × List (PathT × NodeRef))
    (e : ModuleRef × FileNode) :
    FmLe acc.1 (sessionStep s files acc e).1
    ∧ ∀ x ∈ acc.2, x ∈ (sessionStep s files acc e).2 := by
  unfold sessionStep
  dsimp only
  cases alookup acc.2 (refId files
      (build_nested_folders s.path (pathParent e.1.path).length.succ
        (pathParent e.1.path) (.file e.1) acc.1).1
      (build_nested_folders s.path (pathParent e.1.path).length.succ
        (pathParent e.1.path) (.file e.1) acc.1).2) with
  | some r => exact ⟨bnf_le _ _ _ _ _, fun x hx => hx⟩
  | none => exact ⟨bnf_le _ _ _ _ _, fun x hx => List.mem_append_left _ hx⟩

theorem sessionStep_inv (s : SessionRec) (files : List (ModuleRef × FileNode))
    (hfid : FilesIdInv files)
    (acc : List (String × FolderNode) × List (PathT × NodeRef))
    (entry : ModuleRef × FileNode) (hentry : entry ∈ files)
    (hinv1 : FolderMapInv files acc.1)
    (hinv2 : ∀ e ∈ acc.2, SessEntryInv files acc.1 e) :
    FolderMapInv files (sessionStep s files acc entry).1
    ∧ ∀ e ∈ (sessionStep s files acc entry).2,
        SessEntryInv files (sessionStep s files acc entry).1 e := by
  have hF : FolderMapInv files (build_nested_folders s.path
      (pathParent entry.1.path).length.succ (pathParent entry.1.path)
      (.file entry.1) acc.1).1 :=
    bnf_inv files s.path _ _ _ _ hinv1 (fun p hp => ⟨entry, hentry, hp⟩)
  have hLe : FmLe acc.1 (build_nested_folders s.path
      (pathParent entry.1.path).length.succ (pathParent entry.1.path)
      (.file entry.1) acc.1).1 := bnf_le _ _ _ _ _
  have hentry' : (alookup files entry.1).isSome :=
    mem_alookup_isSome (show (entry.1, entry.2) ∈ files by rw [Prod.mk.eta]; exact hentry)
  unfold sessionStep
  dsimp only
  cases hded : alookup acc.2 (refId files
      (build_nested_folders s.path (pathParent entry.1.path).length.succ
        (pathParent entry.1.path) (.file entry.1) acc.1).1
      (build_nested_folders s.path (pathParent entry.1.path).length.succ
        (pathParent entry.1.path) (.file entry.1) acc.1).2) with
  | some r =>
      exact ⟨hF, fun e he => SessEntryInv_mono files hLe (hinv2 e he)⟩
  | none =>
      refine ⟨hF, fun e he => ?_⟩
      rcases List.mem_append.mp he with hold | hnew
      · exact SessEntryInv_mono files hLe (hinv2 e hold)
      · rcases List.mem_singleton.mp hnew with rfl
        rcases bnf_root_cases s.path (pathParent entry.1.path).length.succ
            (pathParent entry.1.path) (.file entry.1) acc.1 with hprev | ⟨k, hk, hsk⟩
        · left
          refine ⟨entry.1, by rw [hprev], ?_, hentry'⟩
          show refId _ _ _ = entry.1.path
          rw [hprev]
          exact refId_file files _ entry.1 hfid hentry'
        · right
          cases hl : alookup (build_nested_folders s.path
              (pathParent entry.1.path).length.succ (pathParent entry.1.path)
              (.file entry.1) acc.1).1 k with
          | none => rw [hl] at hsk; cases hsk
          | some n =>
              refine ⟨k, n, hk, hl, ?_⟩
              show n.path = refId _ _ _
              rw [hk, refId_folder files _ k n hl]
              exact ((hF k n hl).2.1).symm

theorem sessionStep_target (s : SessionRec) (files : List (ModuleRef × FileNode))
    (hfid : FilesIdInv files)
    (hnp : ∀ e ∈ files, ∀ e' ∈ files, ¬ pathLe (Prod.fst e).path (pathParent (Prod.fst e').path))
    (hinj : ∀ e ∈ files, ∀ e' ∈ files, (Prod.fst e).path = (Prod.fst e').path → Prod.fst e = Prod.fst e')
    (acc : List (String × FolderNode) × List (PathT × NodeRef))
    (m : ModuleRef) (nfile : FileNode) (hm : (m, nfile) ∈ files)
    (ds : List String) (fname : String)
    (hpath : m.path = s.path ++ ds ++ [fname])
    (hinv1 : FolderMapInv files acc.1)
    (hinv2 : ∀ e ∈ acc.2, SessEntryInv files acc.1 e) :
    (match ds with
     | [] => ∃ rid, (rid, NodeRef.file m) ∈ (sessionStep s files acc (m, nfile)).2
     | d :: ds' =>
         (∃ rid, (rid, NodeRef.folder d) ∈ (sessionStep s files acc (m, nfile)).2)
         ∧ chainToB (sessionStep s files acc (m, nfile)).1 d ds' (.file m) = true) := by
  have hparent : pathParent m.path = s.path ++ ds := by
    rw [hpath]
    exact pathParent_concat _ _
  have hms : (alookup files m).isSome := mem_alookup_isSome hm
  cases ds with
  | nil =>
      show ∃ rid, (rid, NodeRef.file m) ∈ (sessionStep s files acc (m, nfile)).2
      rw [List.append_nil] at hparent
      unfold sessionStep
      dsimp only
      rw [hparent, bnf_at_root]
      dsimp only
      rw [refId_file files _ m hfid hms]
      cases hded : alookup acc.2 m.path with
      | none =>
          exact ⟨m.path, List.mem_append_right _ (List.mem_singleton.mpr rfl)⟩
      | some r =>
          have hmem := alookup_mem hded
          rcases hinv2 _ hmem with ⟨mr, h1, h2, h3⟩ | ⟨k, n, h1, h2, h3⟩
          · obtain ⟨v', hv'⟩ := Option.isSome_iff_exists.mp h3
            have hmr := alookup_mem hv'
            have hmr_eq : mr = m := by
              have := hinj (mr, v') hmr (m, nfile) hm (by simpa using h2.symm)
              simpa using this
            refine ⟨m.path, ?_⟩
            have h1' : r = NodeRef.file m := by
              rw [← hmr_eq]
              exact h1
            rw [← h1']
            exact hmem
          · exfalso
            obtain ⟨_, _, _, hdir⟩ := hinv1 k n h2
            obtain ⟨e', he', hple⟩ := hdir
            refine hnp (m, nfile) hm e' he' ?_
            show pathLe m.path _
            have h3' : n.path = m.path := h3
            rw [← h3']
            exact hple
  | cons d ds' =>
      show (∃ rid, (rid, NodeRef.folder d) ∈ (sessionStep s files acc (m, nfile)).2)
        ∧ chainToB (sessionStep s files acc (m, nfile)).1 d ds' (.file m) = true
      unfold sessionStep
      dsimp only
      rw [hparent]
      have hlen : (d :: ds').length ≤ (s.path ++ (d :: ds')).length.succ := by
        rw [List.length_append]
        omega
      obtain ⟨hroot, hchain⟩ := bnf_chain s.path d ds' (.file m) acc.1
        (s.path ++ (d :: ds')).length.succ hlen
      have hF : FolderMapInv files (build_nested_folders s.path
          (s.path ++ (d :: ds')).length.succ (s.path ++ (d :: ds'))
          (.file m) acc.1).1 := by
        refine bnf_inv files s.path _ _ _ _ hinv1 ?_
        intro p hp
        refine ⟨(m, nfile), hm, ?_⟩
        show pathLe p (pathParent m.path)
        rw [hparent]
        exact hp
      have hkeys := chainToB_keys _ ds' d (.file m) hchain
      have hdsome := hkeys d (List.mem_cons_self d ds')
      cases hnd : alookup (build_nested_folders s.path
          (s.path ++ (d :: ds')).length.succ (s.path ++ (d :: ds'))
          (.file m) acc.1).1 d with
      | none => rw [hnd] at hdsome; cases hdsome
      | some nd =>
          obtain ⟨hname, hid, hpn, hdir⟩ := hF d nd hnd
          rw [hroot, refId_folder files _ d nd hnd]
          cases hded : alookup acc.2 nd.id_ with
          | none =>
              refine ⟨⟨nd.id_, List.mem_append_right _ (List.mem_singleton.mpr rfl)⟩, hchain⟩
          | some r =>
              have hmem := alookup_mem hded
              rcases hinv2 _ hmem with ⟨mr, h1, h2, h3⟩ | ⟨k, n, h1, h2, h3⟩
              · exfalso
                obtain ⟨v', hv'⟩ := Option.isSome_iff_exists.mp h3
                have hmr := alookup_mem hv'
                obtain ⟨e', he', hple⟩ := hdir
                refine hnp (mr, v') hmr e' he' ?_
                show pathLe mr.path _
                have h2' : nd.id_ = mr.path := h2
                rw [← h2', hid]
                exact hple
              · have h2' : n.path = nd.id_ := h3
                have hk : k = d := by
                  obtain ⟨_, _, hpn', _⟩ := hinv1 k n h2
                  rw [← hpn', h2', hid, hpn]
                have h1' : r = NodeRef.folder d := by
                  rw [← hk]
                  exact h1
                refine ⟨⟨nd.id_, ?_⟩, hchain⟩
                rw [← h1']
                exact hmem

theorem fold_sessionStep_mono (s : SessionRec) (files : List (ModuleRef × FileNode)) :
    ∀ (l : List (ModuleRef × FileNode))
      (acc : List (String × FolderNode) × List (PathT × NodeRef)),
    FmLe acc.1 (l.foldl (sessionStep s files) acc).1
    ∧ ∀ x ∈ acc.2, x ∈ (l.foldl (sessionStep s files) acc).2 := by
  intro l
  induction l with
  | nil => intro acc; exact ⟨FmLe_refl _, fun x hx => hx⟩
  | cons e rest ih =>
      intro acc
      obtain ⟨h1, h2⟩ := sessionStep_mono s files acc e
      obtain ⟨h1', h2'⟩ := ih (sessionStep s files acc e)
      exact ⟨FmLe_trans h1 h1', fun x hx => h2' x (h2 x hx)⟩

theorem fold_sessionStep_inv (s : SessionRec) (files : List (ModuleRef × FileNode))
    (hfid : FilesIdInv files) :
    ∀ (l : List (ModuleRef × FileNode))
      (acc : List (String × FolderNode) × List (PathT × NodeRef)),
    (∀ e ∈ l, e ∈ files) →
    FolderMapInv files acc.1 → (∀ e ∈ acc.2, SessEntryInv files acc.1 e) →
    FolderMapInv files (l.foldl (sessionStep s files) acc).1
    ∧ ∀ e ∈ (l.foldl (sessionStep s files) acc).2,
        SessEntryInv files (l.foldl (sessionStep s files) acc).1 e := by
  intro l
  induction l with
  | nil => intro acc _ h1 h2; exact ⟨h1, h2⟩
  | cons e rest ih =>
      intro acc hl h1 h2
      obtain ⟨h1', h2'⟩ := sessionStep_inv s files hfid acc e
        (hl e (List.mem_cons_self e rest)) h1 h2
      exact ih _ (fun e' he' => hl e' (List.mem_cons_of_mem e he')) h1' h2'

theorem alookup_split {α β : Type} [DecidableEq α] {l : List (α × β)} {k : α} {v : β}
    (h : alookup l k = some v) : ∃ l1 l2, l = l1 ++ (k, v) :: l2 := by
  induction l with
  | nil => simp [alookup] at h
  | cons e rest ih =>
      unfold alookup at h
      by_cases he : e.1 = k
      · rw [if_pos he] at h
        refine ⟨[], rest, ?_⟩
        obtain ⟨a, b⟩ := e
        simp_all
      · rw [if_neg he] at h
        obtain ⟨l1, l2, rfl⟩ := ih h
        exact ⟨e :: l1, l2, rfl⟩

theorem build_test_tree_folders (s : SessionRec) :
    (build_test_tree s).folders
      = (sessionPhase s (s.items.foldl processCase ⟨[], []⟩).files).1 := rfl

theorem build_test_tree_sessionChildren (s : SessionRec) :
    (build_test_tree s).sessionChildren
      = (sessionPhase s (s.items.foldl processCase ⟨[], []⟩).files).2 := rfl

theorem build_test_tree_files (s : SessionRec) :
    (build_test_tree s).files = (s.items.foldl processCase ⟨[], []⟩).files := rfl

/-- C5 amended: for a file at depth `k` below the session root (path
`s.path ++ ds ++ [fname]` with `ds` the `k` directory segments), SOME path
from the session root to that file's node passes through exactly the `k`
folder nodes named by `ds` in order — provided each file key originates
from a collected case, no file path is an ancestor of a directory in
another file's ancestry (a path cannot be both a file and a directory),
and distinct module collectors have distinct paths.  Uniqueness of the
path, which the original claim presupposed, fails (see the
counterexample). -/
theorem C5_folder_ancestry_exists (s : SessionRec) (m : ModuleRef) (ds : List String)
    (fname : String)
    (hmem : ∃ tc ∈ s.items, moduleOf tc = some m)
    (hpath : m.path = s.path ++ ds ++ [fname])
    (hnp : ∀ tc₁ ∈ s.items, ∀ m₁, moduleOf tc₁ = some m₁ →
           ∀ tc₂ ∈ s.items, ∀ m₂, moduleOf tc₂ = some m₂ →
           ¬ pathLe m₁.path (pathParent m₂.path))
    (hinj : ∀ tc₁ ∈ s.items, ∀ m₁, moduleOf tc₁ = some m₁ →
            ∀ tc₂ ∈ s.items, ∀ m₂, moduleOf tc₂ = some m₂ →
            m₁.path = m₂.path → m₁ = m₂) :
    sessionChainB (build_test_tree s) ds m = true
    ∧ ∀ d ∈ ds, ∃ n, alookup (build_test_tree s).folders d = some n ∧ n.name = d := by
  obtain ⟨tc0, htc0, hmod0⟩ := hmem
  have hinit : FilesIdInv (BuildState.mk [] []).files := by
    intro m' n' h
    simp [alookup] at h
  have hfid : FilesIdInv (s.items.foldl processCase ⟨[], []⟩).files :=
    phase1_id_inv s.items ⟨[], []⟩ hinit
  have horigin : ∀ e ∈ (s.items.foldl processCase ⟨[], []⟩).files,
      ∃ tc ∈ s.items, moduleOf tc = some e.1 := by
    intro e he
    have hs : (alookup (s.items.foldl processCase ⟨[], []⟩).files e.1).isSome :=
      mem_alookup_isSome (show (e.1, e.2) ∈ _ by rw [Prod.mk.eta]; exact he)
    rcases phase1_keys_from s.items ⟨[], []⟩ e.1 hs with h' | h'
    · simp [alookup] at h'
    · exact h'
  have hnpF : ∀ e ∈ (s.items.foldl processCase ⟨[], []⟩).files,
      ∀ e' ∈ (s.items.foldl processCase ⟨[], []⟩).files,
      ¬ pathLe (Prod.fst e).path (pathParent (Prod.fst e').path) := by
    intro e he e' he'
    obtain ⟨tc1, htc1, hm1⟩ := horigin e he
    obtain ⟨tc2, htc2, hm2⟩ := horigin e' he'
    exact hnp tc1 htc1 e.1 hm1 tc2 htc2 e'.1 hm2
  have hinjF : ∀ e ∈ (s.items.foldl processCase ⟨[], []⟩).files,
      ∀ e' ∈ (s.items.foldl processCase ⟨[], []⟩).files,
      (Prod.fst e).path = (Prod.fst e').path → Prod.fst e = Prod.fst e' := by
    intro e he e' he' hp
    obtain ⟨tc1, htc1, hm1⟩ := horigin e he
    obtain ⟨tc2, htc2, hm2⟩ := horigin e' he'
    exact hinj tc1 htc1 e.1 hm1 tc2 htc2 e'.1 hm2 hp
  have hks : (alookup (s.items.foldl processCase ⟨[], []⟩).files m).isSome :=
    phase1_key_exists s.items ⟨[], []⟩ tc0 m htc0 hmod0
  obtain ⟨nfile, hnf⟩ := Option.isSome_iff_exists.mp hks
  obtain ⟨l1, l2, hsplit⟩ := alookup_split hnf
  have hmF : (m, nfile) ∈ (s.items.foldl processCase ⟨[], []⟩).files := by
    rw [hsplit]
    exact List.mem_append_right _ (List.mem_cons_self _ _)
  have hl1 : ∀ e ∈ l1, e ∈ (s.items.foldl processCase ⟨[], []⟩).files := by
    intro e he
    rw [hsplit]
    exact List.mem_append_left _ he
  have hl2 : ∀ e ∈ l2, e ∈ (s.items.foldl processCase ⟨[], []⟩).files := by
    intro e he
    rw [hsplit]
    exact List.mem_append_right _ (List.mem_cons_of_mem _ he)
  -- the fold decomposes around the target entry
  have hfold : sessionPhase s (s.items.foldl processCase ⟨[], []⟩).files
      = l2.foldl (sessionStep s (s.items.foldl processCase ⟨[], []⟩).files)
          (sessionStep s (s.items.foldl processCase ⟨[], []⟩).files
            (l1.foldl (sessionStep s (s.items.foldl processCase ⟨[], []⟩).files) ([], []))
            (m, nfile)) := by
    unfold sessionPhase
    rw [hsplit, List.foldl_append, List.foldl_cons]
  obtain ⟨hinvA1, hinvA2⟩ := fold_sessionStep_inv s _ hfid l1 ([], []) hl1
    (by intro k n h; simp [alookup] at h) (by intro e he; cases he)
  have htarget := sessionStep_target s _ hfid hnpF hinjF
    (l1.foldl (sessionStep s (s.items.foldl processCase ⟨[], []⟩).files) ([], []))
    m nfile hmF ds fname hpath hinvA1 hinvA2
  obtain ⟨hinvT1, hinvT2⟩ := sessionStep_inv s _ hfid
    (l1.foldl (sessionStep s (s.items.foldl processCase ⟨[], []⟩).files) ([], []))
    (m, nfile) hmF hinvA1 hinvA2
  obtain ⟨hmono1, hmono2⟩ := fold_sessionStep_mono s
    (s.items.foldl processCase ⟨[], []⟩).files l2
    (sessionStep s (s.items.foldl processCase ⟨[], []⟩).files
      (l1.foldl (sessionStep s (s.items.foldl processCase ⟨[], []⟩).files) ([], []))
      (m, nfile))
  obtain ⟨hinvF1, hinvF2⟩ := fold_sessionStep_inv s _ hfid l2 _ hl2 hinvT1 hinvT2
  cases ds with
  | nil =>
      constructor
      · obtain ⟨rid, hrid⟩ := htarget
        show (build_test_tree s).sessionChildren.any
          (fun kv => decide (kv.2 = NodeRef.file m)) = true
        rw [build_test_tree_sessionChildren, hfold]
        rw [List.any_eq_true]
        exact ⟨(rid, .file m), hmono2 _ hrid, by simp⟩
      · intro d hd
        cases hd
  | cons d ds' =>
      obtain ⟨⟨rid, hrid⟩, hchain⟩ := htarget
      have hchainF : chainToB (l2.foldl (sessionStep s
          (s.items.foldl processCase ⟨[], []⟩).files)
          (sessionStep s (s.items.foldl processCase ⟨[], []⟩).files
            (l1.foldl (sessionStep s (s.items.foldl processCase ⟨[], []⟩).files) ([], []))
            (m, nfile))).1 d ds' (.file m) = true :=
        chainToB_mono hmono1 ds' d (.file m) hchain
      constructor
      · show ((build_test_tree s).sessionChildren.any
            (fun kv => decide (kv.2 = NodeRef.folder d))
          && chainToB (build_test_tree s).folders d ds' (.file m)) = true
        rw [Bool.and_eq_true]
        constructor
        · rw [build_test_tree_sessionChildren, hfold]
          rw [List.any_eq_true]
          exact ⟨(rid, .folder d), hmono2 _ hrid, by simp⟩
        · rw [build_test_tree_folders, hfold]
          exact hchainF
      · intro d' hd'
        have hkeys := chainToB_keys _ ds' d (.file m) hchainF d' hd'
        cases hnd' : alookup (l2.foldl (sessionStep s
            (s.items.foldl processCase ⟨[], []⟩).files)
            (sessionStep s (s.items.foldl processCase ⟨[], []⟩).files
              (l1.foldl (sessionStep s (s.items.foldl processCase ⟨[], []⟩).files) ([], []))
              (m, nfile))).1 d' with
        | none => rw [hnd'] at hkeys; cases hkeys
        | some n =>
            refine ⟨n, ?_, (hinvF1 d' n hnd').1⟩
            rw [build_test_tree_folders, hfold]
            exact hnd'

/-- C5 counterexample: `proj/y/x/b.py` lies at depth 2 below the session
root, but because folder nodes are memoized by bare directory name, the
folder `x` created for `proj/x` is reused for `proj/y/x`, and the output
tree also contains a root-to-file path through exactly one folder
(session -> x -> b.py); the claimed ancestry chain of two folders exists as
well, so the root-to-file path is not unique and the claim's "the path ...
passes through exactly k folder nodes" fails. -/
theorem C5_short_path_counterexample :
    sessionChainB (build_test_tree sessCollide) ["x"] mYXB = true
    ∧ pathParent mYXB.path = ["proj"] ++ ["y", "x"]
    ∧ (["x"] : List String) ≠ ["y", "x"]
    ∧ sessionChainB (build_test_tree sessCollide) ["y", "x"] mYXB = true := by
  decide

/-- C5 witness: the amended theorem applied to a one-file session with the
file at depth 1. -/
theorem C5_folder_ancestry_exists_witness :
    sessionChainB (build_test_tree sessSimple) ["x"] mXA = true
    ∧ ∀ d ∈ (["x"] : List String),
        ∃ n, alookup (build_test_tree sessSimple).folders d = some n ∧ n.name = d :=
  C5_folder_ancestry_exists sessSimple mXA ["x"] "a.py"
    ⟨case1, List.mem_singleton.mpr rfl, rfl⟩
    rfl
    (by
      intro tc₁ h₁ m₁ hm₁ tc₂ h₂ m₂ hm₂
      have h₁' : tc₁ = case1 := by simpa [sessSimple] using h₁
      have h₂' : tc₂ = case1 := by simpa [sessSimple] using h₂
      subst h₁'
      subst h₂'
      have e₁ : mXA = m₁ := Option.some.inj (hm₁ : some mXA = some m₁)
      have e₂ : mXA = m₂ := Option.some.inj (hm₂ : some mXA = some m₂)
      subst e₁
      subst e₂
      decide)
    (by
      intro tc₁ h₁ m₁ hm₁ tc₂ h₂ m₂ hm₂ _
      have h₁' : tc₁ = case1 := by simpa [sessSimple] using h₁
      have h₂' : tc₂ = case1 := by simpa [sessSimple] using h₂
      subst h₁'
      subst h₂'
      have e₁ : mXA = m₁ := Option.some.inj (hm₁ : some mXA = some m₁)
      have e₂ : mXA = m₂ := Option.some.inj (hm₂ : some mXA = some m₂)
      rw [← e₁, ← e₂])

/-! ## C7: TEST_PORT handling. -/

/-- C7 counterexample: with TEST_PORT set to an unparsable value the client
does not fall back to 45454 — `int(testPort)` raises `ValueError`. -/
theorem C7_unparsable_port_raises :
    execution_post_port [("TEST_PORT", "abc")]
      = .error "ValueError: invalid literal for int() with base 10: abc"
    ∧ execution_post_port [("TEST_PORT", "abc")] ≠ .ok 45454
    ∧ sendPost_port [("TEST_PORT", "abc")] ≠ .ok 45454 := by
  decide

/-- C7 amended: with TEST_PORT unset the client targets port 45454; with
TEST_PORT set to a string `int()` accepts, it targets that port; with an
unparsable value `int(testPort)` raises `ValueError` (shown by the
counterexample), rather than falling back to the default. -/
theorem C7_port_default_and_parse (env : Env) :
    (getenv env "TEST_PORT" = none →
      execution_post_port env = .ok 45454 ∧ sendPost_port env = .ok 45454)
    ∧ ∀ s n, getenv env "TEST_PORT" = some s → pythonInt s = some n →
      execution_post_port env = .ok n ∧ sendPost_port env = .ok n := by
  constructor
  · intro h
    unfold sendPost_port execution_post_port
    rw [h]
    exact ⟨rfl, rfl⟩
  · intro s n hs hn
    unfold sendPost_port execution_post_port
    rw [hs]
    simp [hn]

/-! ## C6: Content-Length equals the UTF-8 byte length of the body.

`json.dumps` runs with `ensure_ascii=True`, so the serialized body is pure
ASCII and the character count `len(data)` placed in the header coincides
with the UTF-8 byte length of the body. -/

theorem charOfNat_toNat (n : Nat) (h : n < 55296) : (Char.ofNat n).toNat = n := by
  have hv : n.isValidChar := Or.inl h
  simp [Char.ofNat, hv, Char.toNat, Char.ofNatAux, UInt32.toNat, BitVec.toNat_ofNatLt]

theorem asciiL_nil : asciiL [] := by
  intro c hc
  cases hc

theorem asciiL_cons {c : Char} {l : List Char} (hc : c.toNat < 128) (hl : asciiL l) :
    asciiL (c :: l) := by
  intro x hx
  rcases List.mem_cons.mp hx with h | h
  · exact h ▸ hc
  · exact hl x h

theorem asciiL_append {l₁ l₂ : List Char} (h₁ : asciiL l₁) (h₂ : asciiL l₂) :
    asciiL (l₁ ++ l₂) := by
  intro x hx
  rcases List.mem_append.mp hx with h | h
  · exact h₁ x h
  · exact h₂ x h

theorem hexDigit_ascii (n : Nat) : (hexDigit n).toNat < 128 := by
  unfold hexDigit
  split
  · rw [charOfNat_toNat _ (by omega)]
    omega
  · have : n % 16 < 16 := Nat.mod_lt _ (by omega)
    rw [charOfNat_toNat _ (by omega)]
    omega

theorem hex4_ascii (n : Nat) : asciiL (hex4 n) := by
  intro c hc
  simp [hex4] at hc
  rcases hc with h | h | h | h <;> exact h ▸ hexDigit_ascii _

set_option maxHeartbeats 1000000 in
theorem escapeChar_ascii (c : Char) : asciiL (escapeChar c) := by
  unfold escapeChar
  split_ifs with h1 h2 h3 h4 h5 h6 h7 h8 h9 h10
  · decide
  · decide
  · decide
  · decide
  · decide
  · decide
  · decide
  · exact asciiL_cons (by decide) (asciiL_cons (by decide) (hex4_ascii _))
  · intro x hx
    rcases List.mem_singleton.mp hx with rfl
    omega
  · exact asciiL_cons (by decide) (asciiL_cons (by decide) (hex4_ascii _))
  · exact asciiL_append
      (asciiL_cons (by decide) (asciiL_cons (by decide) (hex4_ascii _)))
      (asciiL_cons (by decide) (asciiL_cons (by decide) (hex4_ascii _)))

theorem dumpString_ascii (s : String) : asciiL (dumpString s) := by
  unfold dumpString
  refine asciiL_cons (by decide) ?_
  induction s.data with
  | nil => decide
  | cons c rest ih =>
      exact asciiL_append (escapeChar_ascii c) ih

theorem natDigitsAux_ascii (fuel : Nat) : ∀ (n : Nat) (acc : List Char),
    asciiL acc → asciiL (natDigitsAux fuel n acc) := by
  induction fuel with
  | zero => intro n acc h; exact h
  | succ fuel ih =>
      intro n acc h
      have hd : (Char.ofNat (48 + n % 10)).toNat < 128 := by
        have : n % 10 < 10 := Nat.mod_lt _ (by omega)
        rw [charOfNat_toNat _ (by omega)]
        omega
      unfold natDigitsAux
      split
      · exact asciiL_cons hd h
      · exact ih _ _ (asciiL_cons hd h)

theorem natChars_ascii (n : Nat) : asciiL (natChars n) :=
  natDigitsAux_ascii _ _ _ asciiL_nil

theorem intChars_ascii (n : Int) : asciiL (intChars n) := by
  unfold intChars
  split
  · exact asciiL_cons (by decide) (natChars_ascii _)
  · exact natChars_ascii _

mutual

theorem dumps_ascii : ∀ v : JVal, asciiL (dumps v)
  | .str s => by rw [dumps]; exact dumpString_ascii s
  | .num n => by rw [dumps]; exact intChars_ascii n
  | .jbool b => by rw [dumps]; cases b <;> decide
  | .jnull => by rw [dumps]; decide
  | .arr xs => by
      rw [dumps]
      exact asciiL_cons (by decide) (asciiL_append (dumpsArr_ascii xs) (by decide))
  | .obj fs => by
      rw [dumps]
      exact asciiL_cons (by decide) (asciiL_append (dumpsObj_ascii fs) (by decide))

theorem dumpsArr_ascii : ∀ xs : List JVal, asciiL (dumpsArr xs)
  | [] => by rw [dumpsArr]; exact asciiL_nil
  | [x] => by rw [dumpsArr]; exact dumps_ascii x
  | x :: y :: rest => by
      rw [dumpsArr]
      exact asciiL_append (asciiL_append (dumps_ascii x) (by decide))
        (dumpsArr_ascii (y :: rest))

theorem dumpsObj_ascii : ∀ fs : List (String × JVal), asciiL (dumpsObj fs)
  | [] => by rw [dumpsObj]; exact asciiL_nil
  | [(k, v)] => by
      rw [dumpsObj]
      exact asciiL_append (asciiL_append (dumpString_ascii k) (by decide))
        (dumps_ascii v)
  | (k, v) :: e :: rest => by
      rw [dumpsObj]
      exact asciiL_append
        (asciiL_append
          (asciiL_append (asciiL_append (dumpString_ascii k) (by decide))
            (dumps_ascii v))
          (by decide))
        (dumpsObj_ascii (e :: rest))

end

theorem utf8Size_of_ascii (c : Char) (h : c.toNat < 128) : c.utf8Size = 1 := by
  have hn : c.val.toNat ≤ 127 := by
    have := h
    simp only [Char.toNat] at this
    omega
  have h127 : ((127 : UInt32).toBitVec).toNat = 127 := by decide
  simp [Char.utf8Size]
  intro hcon
  rw [UInt32.lt_def, BitVec.lt_def] at hcon
  simp [UInt32.toNat] at hn
  omega

theorem utf8ByteSize_of_ascii (l : List Char) (h : asciiL l) :
    String.utf8ByteSize ⟨l⟩ = l.length := by
  show String.utf8ByteSize.go l = l.length
  induction l with
  | nil => rfl
  | cons c rest ih =>
      have hc : c.utf8Size = 1 := utf8Size_of_ascii c (h c (List.mem_cons_self c rest))
      have hrest : asciiL rest := fun x hx => h x (List.mem_cons_of_mem c hx)
      show String.utf8ByteSize.go rest + c.utf8Size = rest.length + 1
      rw [ih hrest, hc]

/-- The framing identity for any request built the way both posting
routines build theirs. -/
theorem mkWireRequest_content_length (port uuid : String) (payload : JVal) :
    (mkWireRequest port uuid payload).contentLength
      = (mkWireRequest port uuid payload).body.utf8ByteSize := by
  show String.length ⟨dumps payload⟩ = String.utf8ByteSize ⟨dumps payload⟩
  rw [utf8ByteSize_of_ascii _ (dumps_ascii payload)]
  rfl

/-- C6: for every payload posted by the reporting client, the Content-Length
header value (`len(data)`) equals the exact byte length of the UTF-8
encoding of the JSON body sent after the blank line — also for payloads
containing non-ASCII characters, because `json.dumps`'s default
`ensure_ascii` escapes them to ASCII. -/
theorem C6_content_length_utf8 (port uuid : String) (payload : JVal) :
    (execution_post_request port uuid payload).contentLength
      = (execution_post_request port uuid payload).body.utf8ByteSize
    ∧ (discovery_post_request port uuid payload).contentLength
      = (discovery_post_request port uuid payload).body.utf8ByteSize
    ∧ (sendPost_request port uuid payload).contentLength
      = (sendPost_request port uuid payload).body.utf8ByteSize :=
  ⟨mkWireRequest_content_length .., mkWireRequest_content_length ..,
   mkWireRequest_content_length ..⟩

/-- C7 witness: concrete instances of both provable branches. -/
theorem C7_port_default_and_parse_witness :
    (execution_post_port [] = .ok 45454 ∧ sendPost_port [] = .ok 45454)
    ∧ (execution_post_port [("TEST_PORT", "8080")] = .ok 8080
       ∧ sendPost_port [("TEST_PORT", "8080")] = .ok 8080) :=
  ⟨(C7_port_default_and_parse []).1 rfl,
   (C7_port_default_and_parse [("TEST_PORT", "8080")]).2 "8080" 8080 (by decide)
     (by decide)⟩

end PyTestAdapter

namespace UnittestAdapter

open PyTestAdapter (Env getenv alookup aset alookup_aset_self alookup_aset_ne)

/-- The map component of `formatResult` does not depend on the pipe check. -/
theorem formatResult_fst (env : Env) (m : List (String × FormattedEntry))
    (t o : String) (e : Option ErrInfo) (sid : Option String) :
    (formatResult env m t o e sid).1 = formatResultMap m t o e sid := by
  unfold formatResult
  cases getenv env "TEST_RUN_PIPE" with
  | none => rfl
  | some p =>
      by_cases hp : p = "" <;> simp [hp]

/-! ## C8: outcome keying. -/

/-- C8: recording a sub-test outcome stores it under the sub-test's own
identifier and leaves the entry under the parent test's identifier
unchanged; and for any two recordings to the same key (`subtestId` if
present, else `testId`) the last write wins. -/
theorem C8_subtest_keying (env : Env) (m : List (String × FormattedEntry))
    (testId subId : String) (err : Option ErrInfo) (h : subId ≠ testId) :
    alookup (addSubTest env m testId subId err).1 subId
      = some (mkResultEntry testId
          (if err.isSome then "subtest-failure" else "subtest-success") err (some subId))
    ∧ alookup (addSubTest env m testId subId err).1 testId = alookup m testId
    ∧ ∀ (m₀ : List (String × FormattedEntry)) t1 o1 e1 s1 t2 o2 e2 s2,
        resultKey t1 s1 = resultKey t2 s2 →
        alookup (formatResultMap (formatResultMap m₀ t1 o1 e1 s1) t2 o2 e2 s2)
          (resultKey t2 s2) = some (mkResultEntry t2 o2 e2 s2) := by
  refine ⟨?_, ?_, ?_⟩
  · rw [addSubTest, formatResult_fst]
    exact alookup_aset_self ..
  · rw [addSubTest, formatResult_fst]
    exact alookup_aset_ne _ _ _ _ (Ne.symm h)
  · intro m₀ t1 o1 e1 s1 t2 o2 e2 s2 _
    exact alookup_aset_self ..

/-- C8 witness: a concrete sub-test recording. -/
theorem C8_subtest_keying_witness :
    alookup (addSubTest [] [] "t1" "t1 (i=0)" none).1 "t1 (i=0)"
      = some (mkResultEntry "t1"
          (if (none : Option ErrInfo).isSome then "subtest-failure" else "subtest-success")
          none (some "t1 (i=0)"))
    ∧ alookup (addSubTest [] [] "t1" "t1 (i=0)" none).1 "t1"
      = alookup ([] : List (String × FormattedEntry)) "t1"
    ∧ ∀ (m₀ : List (String × FormattedEntry)) t1 o1 e1 s1 t2 o2 e2 s2,
        resultKey t1 s1 = resultKey t2 s2 →
        alookup (formatResultMap (formatResultMap m₀ t1 o1 e1 s1) t2 o2 e2 s2)
          (resultKey t2 s2) = some (mkResultEntry t2 o2 e2 s2) :=
  C8_subtest_keying [] [] "t1" "t1 (i=0)" none (by decide)

/-! ## C9: behavior when a pipe environment variable is absent. -/

/-- C9 counterexample: with RUN_TEST_IDS_PIPE absent the adapter prints an
error message but does not fail fast — it still attempts to open the pipe
(`PipeManager(run_test_ids_pipe)` with the unset value), i.e. I/O on the
missing pipe is attempted. -/
theorem C9_open_pipe_despite_missing_env :
    MainEvent.openPipe none ∈ mainPrelude []
    ∧ MainEvent.printMsg "Error[vscode-unittest]: RUN_TEST_IDS_PIPE env var is not set."
        ∈ mainPrelude [] := by
  decide

/-- C9 amended: when TEST_RUN_PIPE is absent at the time a result is
recorded, `formatResult` raises a descriptive `VSCodeUnittestError` before
any pipe I/O; but when RUN_TEST_IDS_PIPE is absent at startup the adapter
only prints a descriptive error and still proceeds to attempt I/O on the
missing pipe. -/
theorem C9_missing_pipe_behavior (env : Env) :
    (getenv env "TEST_RUN_PIPE" = none →
      ∀ m t o e sid, (formatResult env m t o e sid).2
        = .error "UNITTEST ERROR: TEST_RUN_PIPE is not set at the time of unittest trying to send data. ")
    ∧ (getenv env "RUN_TEST_IDS_PIPE" = none →
      MainEvent.printMsg "Error[vscode-unittest]: RUN_TEST_IDS_PIPE env var is not set."
        ∈ mainPrelude env
      ∧ MainEvent.openPipe none ∈ mainPrelude env) := by
  constructor
  · intro h m t o e sid
    unfold formatResult
    rw [h]
  · intro h
    unfold mainPrelude
    rw [h]
    simp [truthy]

/-- C9 witness: the empty environment exercises both branches. -/
theorem C9_missing_pipe_behavior_witness :
    ((formatResult [] [] "t" "failure" none none).2
      = .error "UNITTEST ERROR: TEST_RUN_PIPE is not set at the time of unittest trying to send data. ")
    ∧ (MainEvent.printMsg "Error[vscode-unittest]: RUN_TEST_IDS_PIPE env var is not set."
        ∈ mainPrelude []
       ∧ MainEvent.openPipe none ∈ mainPrelude []) :=
  ⟨(C9_missing_pipe_behavior []).1 rfl [] "t" "failure" none none,
   (C9_missing_pipe_behavior []).2 rfl⟩

/-! ## C10: the end-of-transmission sentinel. -/

/-- C10: on every completed execution run, the payload stream posted by the
main block ends with the sentinel `{"command_type": "execution", "eot": True}`,
sent exactly once, after every execution payload of the run (every earlier
posted payload is an execution payload). -/
theorem C10_eot_sent_last (cwd : String) (params : List String)
    (outcomes : List FormattedEntry) :
    (mainRunPosts cwd params outcomes).getLast?
      = some (.eot { command_type := "execution", eot := true })
    ∧ ∀ p ∈ (mainRunPosts cwd params outcomes).dropLast, ∃ e, p = .exec e := by
  constructor
  · unfold mainRunPosts
    exact List.getLast?_concat _
  · unfold mainRunPosts
    rw [List.dropLast_concat]
    intro p hp
    by_cases h : params.isEmpty
    · simp [h] at hp
      exact ⟨_, hp⟩
    · simp [h] at hp
      obtain ⟨e, _, rfl⟩ := hp
      exact ⟨_, rfl⟩

end UnittestAdapter


